import Mathlib

/-! sqlchemy: the Dameng backend and the instrumented execution wrapper.

A shallow embedding of `backends/dameng/dameng.go` and `sql.go`.

Go strings are modelled as the list of their characters (`Str`).  The source only
ever cuts a string at an ASCII character (`=`), so byte offsets and character
offsets cut at the same places for valid UTF-8 text.  Run-time panics of Go
(slice bounds, a template that cannot be executed) are results of type
`Except Fault`.
-/

namespace Sqlchemy

set_option maxRecDepth 100000

/-- A Go string, as the list of its characters. -/
abbrev Str := List Char

/-- The run-time faults the embedded code can raise instead of returning. -/
inductive Fault
  /-- Go panic: slice bounds out of range. -/
  | sliceBounds
  /-- Go panic: index out of range. -/
  | indexRange
  /-- The template names a field the data does not have. -/
  | templateField
  deriving DecidableEq, Repr

/-! ## The Go standard library functions the source calls -/

/-- The scan of `strings.Index`: the offset of the first place where `substr`
starts, counted from `i`, or -1. -/
def strings.indexFrom (substr : Str) : Str → Nat → Int
  | [], i => if substr = [] then (i : Int) else -1
  | c :: cs, i =>
    if substr.isPrefixOf (c :: cs) then (i : Int) else strings.indexFrom substr cs (i + 1)

/-- Go `strings.Index(s, substr)`: the index of the first instance of `substr`
in `s`, or -1 if `substr` is not present in `s`. -/
def strings.Index (s substr : Str) : Int := strings.indexFrom substr s 0

/-- Go slice expression `s[lo:hi]` on a string: panics unless
`0 ≤ lo ≤ hi ≤ len(s)`. -/
def sliceStr (s : Str) (lo hi : Int) : Except Fault Str :=
  if 0 ≤ lo ∧ lo ≤ hi ∧ hi ≤ (s.length : Int) then
    .ok ((s.take hi.toNat).drop lo.toNat)
  else .error .sliceBounds

/-- Go `unicode.IsSpace`: the Latin-1 spaces and the characters with the
Unicode White_Space property. -/
def unicode.IsSpace (c : Char) : Bool :=
  let n := c.toNat
  n == 0x09 || n == 0x0A || n == 0x0B || n == 0x0C || n == 0x0D || n == 0x20 ||
  n == 0x85 || n == 0xA0 || n == 0x1680 || (0x2000 ≤ n && n ≤ 0x200A) ||
  n == 0x2028 || n == 0x2029 || n == 0x202F || n == 0x205F || n == 0x3000

/-- Go `strings.TrimLeftFunc`. -/
def strings.TrimLeftFunc (s : Str) (f : Char → Bool) : Str := s.dropWhile f

/-- Go `strings.TrimRightFunc`. -/
def strings.TrimRightFunc (s : Str) (f : Char → Bool) : Str :=
  (s.reverse.dropWhile f).reverse

/-- Go `strings.TrimFunc`: leading and trailing characters satisfying `f` removed. -/
def strings.TrimFunc (s : Str) (f : Char → Bool) : Str :=
  strings.TrimRightFunc (strings.TrimLeftFunc s f) f

/-- Go `strings.TrimSpace`. -/
def strings.TrimSpace (s : Str) : Str := strings.TrimFunc s unicode.IsSpace

/-- Go `strings.Trim(s, cutset)`: leading and trailing characters contained in
`cutset` removed. -/
def strings.Trim (s cutset : Str) : Str := strings.TrimFunc s (fun c => cutset.contains c)

/-- Go `strings.Join(elems, sep)`. -/
def strings.Join : List Str → Str → Str
  | [], _ => []
  | [a], _ => a
  | a :: b :: rest, sep => a ++ sep ++ strings.Join (b :: rest) sep

/-! ## Template evaluation -/

/-- A parsed template: literal text and field actions. -/
inductive TemplateNode
  | text (s : Str)
  | action (body : Str)
  deriving DecidableEq, Repr

/-- Splits a template at its double-brace delimiters.  `inAction` tells whether the
scan is inside an action; `acc` holds the characters read since the last
delimiter, latest first. -/
def parseTemplate : Bool → Str → Str → List TemplateNode
  | false, acc, [] => [.text acc.reverse]
  | true, acc, [] => [.action acc.reverse]
  | inAction, acc, [c] => parseTemplate inAction (c :: acc) []
  | inAction, acc, c :: d :: rest =>
    if inAction = false ∧ c = Char.ofNat 0x7B ∧ d = Char.ofNat 0x7B then
      .text acc.reverse :: parseTemplate true [] rest
    else if inAction = true ∧ c = Char.ofNat 0x7D ∧ d = Char.ofNat 0x7D then
      .action acc.reverse :: parseTemplate false [] rest
    else parseTemplate inAction (c :: acc) (d :: rest)

/-- The value of the field an action names: the action body, spaces trimmed,
is a dot followed by the field name. -/
def evalAction (vars : List (Str × Str)) (body : Str) : Except Fault Str :=
  match strings.TrimSpace body with
  | '.' :: name =>
    match vars.lookup name with
    | some v => .ok v
    | none => .error .templateField
  | _ => .error .templateField

/-- Renders parsed nodes: text is copied, an action is replaced by the value of
its field.  The values are written out as they are and never scanned again. -/
def renderNodes (vars : List (Str × Str)) : List TemplateNode → Except Fault Str
  | [] => .ok []
  | .text s :: rest => do
    let tl ← renderNodes vars rest
    pure (s ++ tl)
  | .action body :: rest => do
    let v ← evalAction vars body
    let tl ← renderNodes vars rest
    pure (v ++ tl)

/-- Modelled from the spec: `sqlchemy.TemplateEval` is not among the sources; the
spec says that rendering substitutes precomputed strings into named placeholders
and never re-parses generated SQL.  The data is the list of the (field name,
value) pairs of the struct passed in. -/
def TemplateEval (temp : Str) (vars : List (Str × Str)) : Except Fault Str :=
  renderNodes vars (parseTemplate false [] temp)

/-! ## The schema model seen through the interfaces the backend uses -/

/-- What the backend reads of an `IColumnSpec`. -/
structure IColumnSpec where
  Name : Str
  DefinitionString : Str
  IsPrimary : Bool
  deriving DecidableEq, Repr

/-- What the backend reads of an `ITableSpec`; `ι` is the type of its indexes. -/
structure ITableSpec (ι : Type) where
  Name : Str
  Columns : List IColumnSpec
  Indexes : List ι

/-! ## `PrepareInsertOrUpdateSQL` -/

/-- The template of the merge statement, as in the source. -/
def sqlTemp : Str :=
  "MERGE INTO \"\x7b\x7b .Table \x7d\x7d\" T1 USING (SELECT \x7b\x7b .SelectValues \x7d\x7d FROM DUAL) T2 ON (\x7b\x7b .OnConditions \x7d\x7d) WHEN NOT MATCHED THEN INSERT(\x7b\x7b .Columns \x7d\x7d) VALUES (\x7b\x7b .Values \x7d\x7d) WHEN MATCHED THEN UPDATE \x7b\x7b .SetValues \x7d\x7d".toList

/-- The first loop: one `? AS col` term appended per insert column. -/
def buildSelectValues (insertColNames : List Str) : List Str :=
  insertColNames.foldl (fun selectValues colname =>
    selectValues ++ ["? AS ".toList ++ colname]) []

/-- The second loop: one `T1.col=T2.col` term appended per key column. -/
def buildOnConditions (onPrimaryCols : List Str) : List Str :=
  onPrimaryCols.foldl (fun onConditions primary =>
    onConditions ++ ["T1.".toList ++ primary ++ "=T2.".toList ++ primary]) []

/-- The body of the third loop on one assignment `setCol`. -/
def rewriteSetCol (setCol : Str) : Except Fault Str := do
  let equalPos := strings.Index setCol "=".toList
  let key0 ← sliceStr setCol 0 equalPos
  let key := strings.TrimSpace key0
  let val0 ← sliceStr setCol (equalPos + 1) setCol.length
  let val := strings.TrimSpace val0
  let key := strings.Trim key "\x60\"".toList
  let key := "T1.".toList ++ key
  pure (key ++ " = ".toList ++ val)

/-- One step of the third loop: `updateSetCols[i]` is read, rewritten and
written back into the same slice. -/
def rewriteStep (updateSetCols : List Str) (i : Nat) : Except Fault (List Str) :=
  match updateSetCols[i]? with
  | none => .error .indexRange
  | some setCol => do
    let r ← rewriteSetCol setCol
    pure (updateSetCols.set i r)

/-- The third loop, `for i := range updateSetCols`, over the caller's slice. -/
def rewriteUpdateSetCols (updateSetCols : List Str) : Except Fault (List Str) :=
  (List.range updateSetCols.length).foldlM rewriteStep updateSetCols

/-- What a call leaves behind: the two results and the contents of the caller's
`updateSetCols` slice after the call. -/
structure UpsertResult (α : Type) where
  sql : Str
  values : List α
  updateSetCols : List Str
  deriving DecidableEq, Repr

/-- `SDamengBackend.PrepareInsertOrUpdateSQL`. -/
def PrepareInsertOrUpdateSQL {ι α : Type} (ts : ITableSpec ι)
    (insertColNames insertFields onPrimaryCols updateSetCols : List Str)
    (insertValues updateValues : List α) : Except Fault (UpsertResult α) := do
  let selectValues := buildSelectValues insertColNames
  let onConditions := buildOnConditions onPrimaryCols
  let updateSetCols ← rewriteUpdateSetCols updateSetCols
  let values : List α := []
  let values := values ++ insertValues
  let values := values ++ insertValues
  let values := values ++ updateValues
  let sql ← TemplateEval sqlTemp
    [("Table".toList, ts.Name),
     ("SelectValues".toList, strings.Join selectValues ", ".toList),
     ("OnConditions".toList, strings.Join onConditions " AND ".toList),
     ("Columns".toList, strings.Join insertColNames ", ".toList),
     ("Values".toList, strings.Join insertFields ", ".toList),
     ("SetValues".toList, strings.Join updateSetCols ", ".toList)]
  pure ⟨sql, values, updateSetCols⟩

/-! ## `GetCreateSQLs` and `QuoteChar` -/

/-- The loop over `ts.Columns()`: the pair of the slices `cols` and `primaries`
once every column has been visited. -/
def createTableLoop (columns : List IColumnSpec) : List Str × List Str :=
  columns.foldl (fun (st : List Str × List Str) c =>
    let cols := st.1 ++ [c.DefinitionString]
    if c.IsPrimary then
      (cols, st.2 ++ ["\x60".toList ++ c.Name ++ "\x60".toList])
    else (cols, st.2)) ([], [])

/-- The slice `cols` after the test `len(primaries) > 0`: the items of the
CREATE TABLE statement. -/
def createTableItems (columns : List IColumnSpec) : List Str :=
  let (cols, primaries) := createTableLoop columns
  if primaries.length > 0 then
    cols ++ ["NOT CLUSTER PRIMARY KEY (".toList ++ strings.Join primaries ", ".toList
      ++ ")".toList]
  else cols

/-- The CREATE TABLE statement, the first element of `sqls`. -/
def createTableSQL {ι : Type} (ts : ITableSpec ι) : Str :=
  "CREATE TABLE IF NOT EXISTS \x60".toList ++ ts.Name ++ "\x60 (\n".toList
    ++ strings.Join (createTableItems ts.Columns) ",\n".toList ++ "\n)".toList

/-- `SDamengBackend.GetCreateSQLs`.  `createIndexSQL` is a function of the same
package that is not among the sources; it is taken as a parameter. -/
def GetCreateSQLs {ι : Type} (createIndexSQL : ITableSpec ι → ι → Str)
    (ts : ITableSpec ι) : List Str :=
  let sqls := [createTableSQL ts]
  ts.Indexes.foldl (fun sqls idx => sqls ++ [createIndexSQL ts idx]) sqls

/-- `SDamengBackend.QuoteChar`. -/
def QuoteChar : Str := "\"".toList

/-! ## `getTextSqlType` -/

/-- Modelled from the spec: the constant `sqlchemy.TAG_WIDTH` is not among the
sources; the spec calls it the width option of the tag map. -/
def TAG_WIDTH : Str := "width".toList

/-- `regutils.MatchInteger` of the library `yunion.io/x/pkg`: the string matches
the regular expression `^[0-9]+$`. -/
def regutils.MatchInteger (str : Str) : Bool :=
  !str.isEmpty && str.all (fun c => '0' ≤ c ∧ c ≤ '9')

/-- Go `strconv.Atoi` for a 64-bit `int`: the value and whether the error is
non-nil.  A syntax error gives 0; a value out of range gives the nearest bound. -/
def strconv.Atoi (s : Str) : Int × Bool :=
  match s with
  | [] => (0, true)
  | c :: rest =>
    let neg : Bool := c = '-'
    let body := if c = '-' ∨ c = '+' then rest else s
    if body.isEmpty then (0, true)
    else if body.all (fun ch => '0' ≤ ch ∧ ch ≤ '9') then
      let un : Nat := body.foldl (fun n ch => n * 10 + (ch.toNat - '0'.toNat)) 0
      if neg then
        if un > 2 ^ 63 then (-(2 ^ 63 : Int), true) else (-(un : Int), false)
      else if un ≥ 2 ^ 63 then ((2 ^ 63 : Int) - 1, true) else ((un : Int), false)
    else (0, true)

/-- `getTextSqlType`.  A Go map is a partial function; reading a missing key
gives the empty string. -/
def getTextSqlType (tagmap : Str → Option Str) : Str :=
  let widthStr := (tagmap TAG_WIDTH).getD []
  let width : Int :=
    if widthStr.length > 0 && regutils.MatchInteger widthStr then
      (strconv.Atoi widthStr).1
    else 0
  if width = 0 ∨ width > 975 then "TEXT".toList else "VARCHAR".toList

/-! ## `GetColumnSpecByFieldType` -/

/-- Go `reflect.Kind`. -/
inductive reflect.Kind
  | Invalid | Bool | Int | Int8 | Int16 | Int32 | Int64
  | Uint | Uint8 | Uint16 | Uint32 | Uint64 | Uintptr
  | Float32 | Float64 | Complex64 | Complex128
  | Array | Chan | Func | Interface | Map | Pointer | Slice | String | Struct
  | UnsafePointer
  deriving DecidableEq, Repr

/-- A Go `reflect.Type` as far as the backend looks at it: which type it is (package
path and name) and its kind.  Two values are the same type when they are equal. -/
structure ReflectType where
  PkgPath : Str
  Name : Str
  Kind : reflect.Kind
  deriving DecidableEq, Repr

/-- `tristate.TriStateType`: the type `TriState`, a string type. -/
def tristate.TriStateType : ReflectType :=
  ⟨"yunion.io/x/pkg/tristate".toList, "TriState".toList, .String⟩

/-- `gotypes.TimeType`: the type `time.Time`, a struct type. -/
def gotypes.TimeType : ReflectType := ⟨"time".toList, "Time".toList, .Struct⟩

/-- `gotypes.Float64Type`: the built-in type `float64`. -/
def gotypes.Float64Type : ReflectType := ⟨[], "float64".toList, .Float64⟩

/-- The column a call of one of the backend's column constructors builds: the
constructor called and its arguments.  The constructors themselves are not among
the sources. -/
inductive SDamengColumn
  | NewTristateColumn (table fieldname : Str) (tagmap : Str → Option Str) (isPointer : Bool)
  | NewDateTimeColumn (fieldname : Str) (tagmap : Str → Option Str) (isPointer : Bool)
  | NewTextColumn (fieldname sqltype : Str) (tagmap : Str → Option Str) (isPointer : Bool)
  | NewIntegerColumn (fieldname sqltype : Str) (tagmap : Str → Option Str) (isPointer : Bool)
  | NewBooleanColumn (fieldname : Str) (tagmap : Str → Option Str) (isPointer : Bool)
  | NewDecimalColumn (fieldname : Str) (tagmap : Str → Option Str) (isPointer : Bool)
  | NewFloatColumn (fieldname colType : Str) (tagmap : Str → Option Str) (isPointer : Bool)
  | NewCompoundColumn (fieldname sqltype : Str) (tagmap : Str → Option Str) (isPointer : Bool)

/-- `SDamengBackend.GetColumnSpecByFieldType`; `none` is the nil result.
`implementsISerializable` is `fieldType.Implements(gotypes.ISerializableType)` and
`tableName` is `table.Name()`. -/
def GetColumnSpecByFieldType (implementsISerializable : ReflectType → Bool)
    (tableName : Str) (fieldType : ReflectType) (fieldname : Str)
    (tagmap : Str → Option Str) (isPointer : Bool) : Option SDamengColumn :=
  if fieldType = tristate.TriStateType then
    some (.NewTristateColumn tableName fieldname tagmap isPointer)
  else if fieldType = gotypes.TimeType then
    some (.NewDateTimeColumn fieldname tagmap isPointer)
  else
    match fieldType.Kind with
    | .String => some (.NewTextColumn fieldname (getTextSqlType tagmap) tagmap isPointer)
    | .Int | .Int32 => some (.NewIntegerColumn fieldname "INT".toList tagmap isPointer)
    | .Int8 => some (.NewIntegerColumn fieldname "TINYINT".toList tagmap isPointer)
    | .Int16 => some (.NewIntegerColumn fieldname "SMALLINT".toList tagmap isPointer)
    | .Int64 => some (.NewIntegerColumn fieldname "BIGINT".toList tagmap isPointer)
    | .Uint | .Uint32 => some (.NewIntegerColumn fieldname "INT".toList tagmap isPointer)
    | .Uint8 => some (.NewIntegerColumn fieldname "TINYINT".toList tagmap isPointer)
    | .Uint16 => some (.NewIntegerColumn fieldname "SMALLINT".toList tagmap isPointer)
    | .Uint64 => some (.NewIntegerColumn fieldname "BIGINT".toList tagmap isPointer)
    | .Bool => some (.NewBooleanColumn fieldname tagmap isPointer)
    | .Float32 | .Float64 =>
      if (tagmap TAG_WIDTH).isSome then
        some (.NewDecimalColumn fieldname tagmap isPointer)
      else
        let colType := if fieldType = gotypes.Float64Type then "DOUBLE".toList
          else "REAL".toList
        some (.NewFloatColumn fieldname colType tagmap isPointer)
    | .Map | .Slice =>
      some (.NewCompoundColumn fieldname (getTextSqlType tagmap) tagmap isPointer)
    | _ =>
      if implementsISerializable fieldType then
        some (.NewCompoundColumn fieldname (getTextSqlType tagmap) tagmap isPointer)
      else none

/-! ## Schema introspection -/

/-- Go `errors.Wrap` of `yunion.io/x/pkg/errors` on a non-nil error: an error
that carries the wrapped one and a message.  `ε` is the type of the errors the
catalog query raises. -/
inductive GoError (ε : Type)
  | raw (e : ε)
  | Wrap (err : GoError ε) (msg : Str)
  deriving DecidableEq, Repr

/-- The error an error directly wraps, if it wraps one. -/
def GoError.Unwrap {ε : Type} : GoError ε → Option (GoError ε)
  | .raw _ => none
  | .Wrap err _ => some err

/-- `SDamengBackend.FetchTableColumnSpecs`.  The catalog query `fetchTableColInfo(ts)`
and the conversion `info.toColumnSpec()` are not among the sources: `queried` is
the pair the query returned and `toColumnSpec` the conversion.  A nil slice is
`none`. -/
def FetchTableColumnSpecs {σ κ ε : Type} (toColumnSpec : σ → κ)
    (queried : List σ × Option (GoError ε)) : Option (List κ) × Option (GoError ε) :=
  match queried.2 with
  | some err => (none, some (.Wrap err "fetchTableColInfo".toList))
  | none =>
    let specs := queried.1.foldl (fun specs info => specs ++ [toColumnSpec info]) []
    (some specs, none)

/-- What `FetchIndexesAndConstraints` reads of one index record of
`fetchTableIndexes`. -/
structure sIndexRecord where
  indexName : Str
  colnames : List Str
  isPrimary : Bool
  deriving DecidableEq, Repr

/-- `SDamengBackend.FetchIndexesAndConstraints`.  `queried` is what
`fetchTableIndexes(ts)` returned, its records in the order `range` visits them;
`NewTableIndex` is a constructor that is not among the sources; `γ` is the type
of the constraints, of which none is ever returned. -/
def FetchIndexesAndConstraints {ι κ γ ε : Type}
    (NewTableIndex : ITableSpec ι → Str → List Str → Bool → κ) (ts : ITableSpec ι)
    (queried : List sIndexRecord × Option (GoError ε)) :
    Option (List κ) × Option (List γ) × Option (GoError ε) :=
  match queried.2 with
  | some err => (none, none, some (.Wrap err "fetchTableIndexes".toList))
  | none =>
    let retIdxes := queried.1.foldl (fun retIdxes rec =>
      if rec.isPrimary then retIdxes
      else retIdxes ++ [NewTableIndex ts rec.indexName rec.colnames false]) []
    (some retIdxes, none, none)

/-- Go's order of strings, `a <= b`: the lexicographic order of their bytes, which
for UTF-8 text is the lexicographic order of their characters. -/
def stringLE : Str → Str → Bool
  | [], _ => true
  | _ :: _, [] => false
  | a :: s, b :: t => decide (a < b) || (a == b && stringLE s t)

/-- The place of one string among strings already in increasing order. -/
def insertString (x : Str) : List Str → List Str
  | [] => [x]
  | y :: rest => if stringLE x y then x :: y :: rest else y :: insertString x rest

/-- Go `sort.Strings`: the strings put in increasing order. -/
def sort.Strings : List Str → List Str
  | [] => []
  | x :: rest => insertString x (sort.Strings rest)

/-- Modelled from the spec: an index of the schema model, which holds a name, an
ordered column-name sequence and a uniqueness flag, together with the name of its
table.  The type `sqlchemy.STableIndex` is not among the sources. -/
structure STableIndex where
  table : Str
  name : Str
  columns : List Str
  isUnique : Bool
  deriving DecidableEq, Repr

/-- Modelled from the spec: `sqlchemy.NewTableIndex` is not among the sources.  The
constructor keeps the table, the name and the uniqueness flag it is given; the
ordered column-name sequence it stores is the given column names put in
increasing order with `sort.Strings`, as the constructor of the package does. -/
def NewTableIndex {ι : Type} (ts : ITableSpec ι) (name : Str) (cols : List Str)
    (unique : Bool) : STableIndex :=
  ⟨ts.Name, name, sort.Strings cols, unique⟩

/-! ## `DropIndexSQLTemplate` -/

/-- `SDamengBackend.DropIndexSQLTemplate`, as in the source. -/
def DropIndexSQLTemplate : Str :=
  "DROP INDEX \"\x7b\x7b .Index \x7d\x7d\"\" ON \"\x7b\x7b .Table \x7d\x7d\"".toList

/-! ## The execution wrapper of `sql.go` -/

/-- The struct `fileLine`. -/
structure fileLine where
  oneCloudFile : Str
  oneCloudLine : Int
  marketFile : Str
  marketLine : Int
  deriving DecidableEq, Repr

/-- `fileLine.GetFileLine`. -/
def fileLine.GetFileLine (l : fileLine) : Int :=
  if l.marketFile ≠ [] then l.marketLine else l.oneCloudLine

/-- `fileLine.GetFile`. -/
def fileLine.GetFile (l : fileLine) : Str :=
  if l.marketFile ≠ [] then l.marketFile else l.oneCloudFile

/-- What `getFileLine` reads of a Go `runtime.Frame`. -/
structure runtime.Frame where
  File : Str
  Line : Int
  deriving DecidableEq, Repr

/-- Go `strings.Contains(s, substr)`, which is `strings.Index(s, substr) >= 0`. -/
def strings.Contains (s substr : Str) : Bool := decide (strings.Index s substr ≥ 0)

/-- The body of the loop of `getFileLine` on one frame. -/
def getFileLine.step (fLine : fileLine) (frame : runtime.Frame) : fileLine :=
  let fLine :=
    if strings.Contains frame.File "yunion.io/x/onecloud".toList
        && fLine.oneCloudFile == [] then
      { fLine with oneCloudFile := frame.File, oneCloudLine := frame.Line }
    else fLine
  let fLine :=
    if strings.Contains frame.File "market".toList
        && !strings.Contains frame.File "dispatcher".toList
        && fLine.marketFile == [] then
      { fLine with marketFile := frame.File, marketLine := frame.Line }
    else fLine
  fLine

/-- The loop of `getFileLine`: `frames.Next()` is called, the frame handled, and the
loop left when there is no further frame.  On an empty sequence `Next` gives the
zero frame once. -/
def getFileLine.loop : fileLine → List runtime.Frame → fileLine
  | fLine, [] => getFileLine.step fLine ⟨[], 0⟩
  | fLine, [frame] => getFileLine.step fLine frame
  | fLine, frame :: next :: rest =>
    getFileLine.loop (getFileLine.step fLine frame) (next :: rest)

/-- `getFileLine`.  `frames` is the sequence of frames `runtime.CallersFrames`
yields for the program counters `runtime.Callers` stored (at most
`maxStackDepth = 32` of them). -/
def getFileLine (frames : List runtime.Frame) : fileLine :=
  getFileLine.loop ⟨[], 0, [], 0⟩ frames

/-- Go `fmt.Sprintf("%d", i)` for an `int`. -/
def fmtInt (i : Int) : Str :=
  if i < 0 then '-' :: Nat.toDigits 10 i.natAbs else Nat.toDigits 10 i.toNat

/-- What one instrumented call does: the value the underlying handle returned and
the line handed to `log.Infof`. -/
structure Traced (ρ : Type) where
  returned : ρ
  logged : Str

/-- `DB.DoExec`.  `ExecContext` is the method of the wrapped handle, `frames` the
call stack read by `getFileLine` and `uuid` the value of `GetUUID()`. -/
def DB.DoExec {α ρ : Type} (ExecContext : Str → List α → ρ) (frames : List runtime.Frame)
    (uuid : Str) (action table query : Str) (args : List α) : Traced ρ :=
  let line := getFileLine frames
  let uid := uuid
  let table := strings.Trim table "\x60".toList
  let logged := "DoExec: table ".toList ++ table ++ " action ".toList ++ action
    ++ " uuid ".toList ++ uid
  let comment := "/* product=tke-market, file=".toList ++ line.GetFile ++ ", line=".toList
    ++ fmtInt line.GetFileLine ++ ", flow=".toList ++ action ++ ", identity=".toList ++ uid
    ++ " */".toList
  let sqlstr := comment ++ query
  ⟨ExecContext sqlstr args, logged⟩

/-- `DB.QueryRow`; `QueryRow` is the method of the wrapped handle. -/
def DB.QueryRow {α ρ : Type} (QueryRow : Str → List α → ρ) (frames : List runtime.Frame)
    (uuid : Str) (action table query : Str) (args : List α) : Traced ρ :=
  let line := getFileLine frames
  let uid := uuid
  let table := strings.Trim table "\x60".toList
  let logged := "QueryRow: table ".toList ++ table ++ " action ".toList ++ action
    ++ " uuid ".toList ++ uid
  let comment := "/* product=tke-market, file=".toList ++ line.GetFile ++ ", line=".toList
    ++ fmtInt line.GetFileLine ++ ", flow=".toList ++ action ++ ", identity=".toList ++ uid
    ++ " */".toList
  let sqlstr := comment ++ query
  ⟨QueryRow sqlstr args, logged⟩

/-- `DB.Query`; `Query` is the method of the wrapped handle. -/
def DB.Query {α ρ : Type} (Query : Str → List α → ρ) (frames : List runtime.Frame)
    (uuid : Str) (action table query : Str) (args : List α) : Traced ρ :=
  let line := getFileLine frames
  let uid := uuid
  let table := strings.Trim table "\x60".toList
  let logged := "Query: table ".toList ++ table ++ " action ".toList ++ action
    ++ " uuid ".toList ++ uid
  let comment := "/* product=tke-market, file=".toList ++ line.GetFile ++ ", line=".toList
    ++ fmtInt line.GetFileLine ++ ", flow=".toList ++ action ++ ", identity=".toList ++ uid
    ++ " */".toList
  let sqlstr := comment ++ query
  ⟨Query sqlstr args, logged⟩

/-! ## Closed forms used to state what the loops compute -/

/-- The part of an assignment before its first `=`. -/
def assignKey (setCol : Str) : Str := setCol.takeWhile (fun c => c != '=')

/-- The part of an assignment after its first `=`. -/
def assignVal (setCol : Str) : Str := (setCol.dropWhile (fun c => c != '=')).drop 1

/-- The text an assignment is rewritten to when it is cut at its first `=`. -/
def rewrittenSetCol (setCol : Str) : Str :=
  "T1.".toList ++ strings.Trim (strings.TrimSpace (assignKey setCol)) "\x60\"".toList
    ++ " = ".toList ++ strings.TrimSpace (assignVal setCol)

/-- The merge statement with its six slots filled in. -/
def mergeSQL (table selectValues onConditions columns values setValues : Str) : Str :=
  "MERGE INTO \"".toList ++ table ++ "\" T1 USING (SELECT ".toList ++ selectValues
    ++ " FROM DUAL) T2 ON (".toList ++ onConditions
    ++ ") WHEN NOT MATCHED THEN INSERT(".toList ++ columns ++ ") VALUES (".toList ++ values
    ++ ") WHEN MATCHED THEN UPDATE ".toList ++ setValues

/-- The term of the source-row select list for one insert column. -/
def selectTerm (colname : Str) : Str := "? AS ".toList ++ colname

/-- The equality of the match predicate for one key column. -/
def onTerm (primary : Str) : Str := "T1.".toList ++ primary ++ "=T2.".toList ++ primary

/-- The number of `?` placeholders in a text. -/
def placeholders (s : Str) : Nat := s.count '?'

/-- Whether the first or the last character of a text satisfies `f`: what
`strings.TrimFunc` would remove something of. -/
def surrounded (f : Char → Bool) (s : Str) : Bool :=
  s.head?.any f || s.getLast?.any f

/-- The characters `strings.Trim` removes around the key of an assignment: the
backquote and the double quote. -/
def keyCutset : Str := "\x60\"".toList

/-- An assignment `col=expr` that carries no white space around `col` or `expr` and
no quote around `col`. -/
def bareAssignment (p : Str × Str) : Prop :=
  surrounded unicode.IsSpace p.1 = false ∧
  surrounded (fun c => keyCutset.contains c) p.1 = false ∧
  surrounded unicode.IsSpace p.2 = false

/-- A name between two copies of the quoting text `q`. -/
def quoted (q name : Str) : Str := q ++ name ++ q

/-- The primary-key item of a CREATE TABLE statement over the given quoted names. -/
def primaryKeyClause (names : List Str) : Str :=
  "NOT CLUSTER PRIMARY KEY (".toList ++ strings.Join names ", ".toList ++ ")".toList

/-- The number a string of decimal digits denotes, most significant digit first. -/
def decimalValue (w : Str) : Nat :=
  Nat.ofDigits 10 (w.reverse.map (fun c => c.toNat - '0'.toNat))

/-- A nonempty string of the digits `0` to `9`. -/
def isDecimal (w : Str) : Prop := w ≠ [] ∧ ∀ c ∈ w, '0' ≤ c ∧ c ≤ '9'

/-- The test of `getFileLine` for the outer pattern. -/
def isOneCloudFrame (frame : runtime.Frame) : Bool :=
  strings.Contains frame.File "yunion.io/x/onecloud".toList

/-- The test of `getFileLine` for the secondary pattern. -/
def isMarketFrame (frame : runtime.Frame) : Bool :=
  strings.Contains frame.File "market".toList
    && !strings.Contains frame.File "dispatcher".toList

/-- The file and line kept for a pattern `p`: those already recorded when a file is
recorded, else those of the first frame that satisfies `p`, if there is one. -/
def firstMatch (p : runtime.Frame → Bool) (file : Str) (line : Int)
    (frames : List runtime.Frame) : Str × Int :=
  if file ≠ [] then (file, line)
  else
    match frames.find? p with
    | some frame => (frame.File, frame.Line)
    | none => (file, line)

/-- The comment the instrumented calls put in front of the query. -/
def flowComment (file : Str) (line : Int) (action uid : Str) : Str :=
  "/* product=tke-market, file=".toList ++ (file ++ (", line=".toList ++ (fmtInt line
    ++ (", flow=".toList ++ (action ++ (", identity=".toList ++ (uid ++ " */".toList)))))))

/-- Whether the character `a` is directly followed by the character `b` somewhere
in a text. -/
def hasPair (a b : Char) : Str → Bool
  | [] => false
  | [_] => false
  | x :: y :: rest => (x == a && y == b) || hasPair a b (y :: rest)

/-- A text with no line break and no comment terminator in it. -/
def commentSafe (s : Str) : Prop :=
  '\n' ∉ s ∧ '\r' ∉ s ∧ ¬ "*/".toList <:+: s

/-- A comment that is opened at its start, closed at its end and nowhere before,
and holds no line break. -/
def wellFormedComment (c : Str) : Prop :=
  "/*".toList <+: c ∧ "*/".toList <:+ c ∧ '\n' ∉ c ∧ '\r' ∉ c ∧
    ¬ "*/".toList <:+: c.dropLast

/-! ## Lemmas on the library functions -/

section Lemmas

theorem templateEval_sqlTemp (table sv oc cols vals setv : Str) :
    TemplateEval sqlTemp
      [("Table".toList, table), ("SelectValues".toList, sv), ("OnConditions".toList, oc),
       ("Columns".toList, cols), ("Values".toList, vals), ("SetValues".toList, setv)]
    = .ok ("MERGE INTO \"".toList ++ (table ++ ("\" T1 USING (SELECT ".toList ++ (sv ++
        (" FROM DUAL) T2 ON (".toList ++ (oc ++ (") WHEN NOT MATCHED THEN INSERT(".toList ++
        (cols ++ (") VALUES (".toList ++ (vals ++
        (") WHEN MATCHED THEN UPDATE ".toList ++ (setv ++ [])))))))))))) := by
  rfl

theorem indexFrom_eq_of_mem (s : Str) (i : Nat) (h : '=' ∈ s) :
    strings.indexFrom ['='] s i = ((i + (s.takeWhile (fun c => c != '=')).length : Nat) : Int) := by
  induction s generalizing i with
  | nil => simp at h
  | cons c cs ih =>
    by_cases hc : c = '='
    · subst hc
      simp [strings.indexFrom, List.isPrefixOf]
    · have hmem : '=' ∈ cs := by
        rcases List.mem_cons.mp h with h1 | h1
        · exact absurd h1.symm hc
        · exact h1
      have hne : ('=' == c) = false := by
        simp only [beq_eq_false_iff_ne, ne_eq]
        exact fun h1 => hc h1.symm
      simp only [strings.indexFrom, List.isPrefixOf, hne, Bool.false_and]
      rw [if_neg (by simp), ih (i + 1) hmem]
      have : (c != '=') = true := by simp [hc]
      simp only [List.takeWhile_cons, this, if_true, List.length_cons]
      congr 1
      omega

theorem indexFrom_eq_of_not_mem (s : Str) (i : Nat) (h : '=' ∉ s) :
    strings.indexFrom ['='] s i = -1 := by
  induction s generalizing i with
  | nil => simp [strings.indexFrom]
  | cons c cs ih =>
    have hc : ¬ c = '=' := fun h1 => h (by simp [h1])
    have hmem : '=' ∉ cs := fun h1 => h (List.mem_cons_of_mem _ h1)
    have hne : ('=' == c) = false := by
      simp only [beq_eq_false_iff_ne, ne_eq]
      exact fun h1 => hc h1.symm
    simp only [strings.indexFrom, List.isPrefixOf, hne, Bool.false_and]
    rw [if_neg (by simp), ih (i + 1) hmem]

theorem index_eq_of_mem (s : Str) (h : '=' ∈ s) :
    strings.Index s "=".toList = ((assignKey s).length : Int) := by
  have := indexFrom_eq_of_mem s 0 h
  simpa [strings.Index, assignKey] using this

theorem index_eq_of_not_mem (s : Str) (h : '=' ∉ s) :
    strings.Index s "=".toList = -1 :=
  indexFrom_eq_of_not_mem s 0 h

theorem assignKey_length_lt (s : Str) (h : '=' ∈ s) : (assignKey s).length < s.length := by
  induction s with
  | nil => simp at h
  | cons c cs ih =>
    by_cases hc : c = '='
    · subst hc; simp [assignKey]
    · have hmem : '=' ∈ cs := by
        rcases List.mem_cons.mp h with h1 | h1
        · exact absurd h1.symm hc
        · exact h1
      have := ih hmem
      have hb : (c != '=') = true := by simp [hc]
      simp only [assignKey, List.takeWhile_cons, hb, if_true, List.length_cons] at this ⊢
      omega

theorem take_assignKey_length (s : Str) : s.take (assignKey s).length = assignKey s := by
  have h := List.takeWhile_append_dropWhile (fun c => c != '=') s
  have h2 : s.take (assignKey s).length
      = (s.takeWhile (fun c => c != '=') ++ s.dropWhile (fun c => c != '=')).take
          (assignKey s).length := by rw [h]
  rw [h2]
  exact List.take_left _ _

theorem drop_assignKey_length (s : Str) :
    s.drop ((assignKey s).length + 1) = assignVal s := by
  have h := List.takeWhile_append_dropWhile (fun c => c != '=') s
  have h2 : s.drop (assignKey s).length = s.dropWhile (fun c => c != '=') := by
    have h3 : s.drop (assignKey s).length
        = (s.takeWhile (fun c => c != '=') ++ s.dropWhile (fun c => c != '=')).drop
            (assignKey s).length := by rw [h]
    rw [h3]
    exact List.drop_left _ _
  rw [assignVal, ← h2, List.drop_drop, Nat.add_comm]

theorem sliceStr_key (s : Str) (h : '=' ∈ s) :
    sliceStr s 0 (strings.Index s "=".toList) = .ok (assignKey s) := by
  have hlt := assignKey_length_lt s h
  rw [index_eq_of_mem s h, sliceStr, if_pos (by omega)]
  simp [take_assignKey_length]

theorem sliceStr_val (s : Str) (h : '=' ∈ s) :
    sliceStr s (strings.Index s "=".toList + 1) s.length = .ok (assignVal s) := by
  have hlt := assignKey_length_lt s h
  rw [index_eq_of_mem s h, sliceStr, if_pos (by omega)]
  have : (((assignKey s).length : Int) + 1).toNat = (assignKey s).length + 1 := by omega
  simp [this, drop_assignKey_length]

theorem rewriteSetCol_of_mem (s : Str) (h : '=' ∈ s) :
    rewriteSetCol s = .ok (rewrittenSetCol s) := by
  simp only [rewriteSetCol, sliceStr_key s h, sliceStr_val s h, rewrittenSetCol]
  rfl

theorem rewriteSetCol_of_not_mem (s : Str) (h : '=' ∉ s) :
    rewriteSetCol s = .error .sliceBounds := by
  simp only [rewriteSetCol, index_eq_of_not_mem s h, sliceStr]
  rfl

theorem rewriteLoop_ok (suf pre : List Str) (h : ∀ s ∈ suf, '=' ∈ s) :
    (List.range' pre.length suf.length).foldlM rewriteStep (pre ++ suf)
      = .ok (pre ++ suf.map rewrittenSetCol) := by
  induction suf generalizing pre with
  | nil => simp [pure, Except.pure]
  | cons a rest ih =>
    have ha : '=' ∈ a := h a (by simp)
    have hrest : ∀ s ∈ rest, '=' ∈ s := fun s hs => h s (List.mem_cons_of_mem _ hs)
    have hstep : rewriteStep (pre ++ a :: rest) pre.length
        = .ok ((pre ++ [rewrittenSetCol a]) ++ rest) := by
      have hget : (pre ++ a :: rest)[pre.length]? = some a := by
        rw [List.getElem?_append_right (Nat.le_refl _)]
        simp
      have hset : (pre ++ a :: rest).set pre.length (rewrittenSetCol a)
          = pre ++ rewrittenSetCol a :: rest := by
        rw [List.set_append]
        simp
      rw [rewriteStep, hget]
      simp only [rewriteSetCol_of_mem a ha, bind, Except.bind, pure, Except.pure, hset]
      simp
    have := ih (pre ++ [rewrittenSetCol a]) hrest
    simp only [List.length_append, List.length_singleton] at this
    simp only [List.length_cons, List.range', List.foldlM_cons, hstep, bind, Except.bind,
      List.map_cons]
    rw [this]
    simp

theorem rewriteUpdateSetCols_ok (cols : List Str) (h : ∀ s ∈ cols, '=' ∈ s) :
    rewriteUpdateSetCols cols = .ok (cols.map rewrittenSetCol) := by
  have := rewriteLoop_ok cols [] h
  simpa [rewriteUpdateSetCols, List.range_eq_range'] using this

theorem foldl_append_singleton {β γ : Type} (f : β → γ) (l : List β) (init : List γ) :
    l.foldl (fun acc x => acc ++ [f x]) init = init ++ l.map f := by
  induction l generalizing init with
  | nil => simp
  | cons a rest ih => simp [ih]

theorem buildSelectValues_eq (cols : List Str) :
    buildSelectValues cols = cols.map selectTerm :=
  (foldl_append_singleton selectTerm cols []).trans (List.nil_append _)

theorem buildOnConditions_eq (prim : List Str) :
    buildOnConditions prim = prim.map onTerm :=
  (foldl_append_singleton onTerm prim []).trans (List.nil_append _)

theorem templateEval_eq_mergeSQL (table sv oc cols vals setv : Str) :
    TemplateEval sqlTemp
      [("Table".toList, table), ("SelectValues".toList, sv), ("OnConditions".toList, oc),
       ("Columns".toList, cols), ("Values".toList, vals), ("SetValues".toList, setv)]
    = .ok (mergeSQL table sv oc cols vals setv) := by
  rw [templateEval_sqlTemp]
  simp [mergeSQL]

theorem prepare_of_rewrite {ι α : Type} (ts : ITableSpec ι)
    (cols fields prim sets sets2 : List Str) (iv uv : List α)
    (h : rewriteUpdateSetCols sets = .ok sets2) :
    PrepareInsertOrUpdateSQL ts cols fields prim sets iv uv
      = .ok ⟨mergeSQL ts.Name (strings.Join (buildSelectValues cols) ", ".toList)
          (strings.Join (buildOnConditions prim) " AND ".toList)
          (strings.Join cols ", ".toList) (strings.Join fields ", ".toList)
          (strings.Join sets2 ", ".toList), iv ++ iv ++ uv, sets2⟩ := by
  simp only [PrepareInsertOrUpdateSQL, h, templateEval_eq_mergeSQL, bind, Except.bind, pure,
    Except.pure, List.nil_append]

theorem prepare_eq {ι α : Type} (ts : ITableSpec ι)
    (cols fields prim sets : List Str) (iv uv : List α) (h : ∀ s ∈ sets, '=' ∈ s) :
    PrepareInsertOrUpdateSQL ts cols fields prim sets iv uv
      = .ok ⟨mergeSQL ts.Name (strings.Join (buildSelectValues cols) ", ".toList)
          (strings.Join (buildOnConditions prim) " AND ".toList)
          (strings.Join cols ", ".toList) (strings.Join fields ", ".toList)
          (strings.Join (sets.map rewrittenSetCol) ", ".toList), iv ++ iv ++ uv,
          sets.map rewrittenSetCol⟩ :=
  prepare_of_rewrite ts cols fields prim sets _ iv uv (rewriteUpdateSetCols_ok sets h)

theorem prepare_values_of_ok {ι α : Type} (ts : ITableSpec ι)
    (cols fields prim sets : List Str) (iv uv : List α) (r : UpsertResult α)
    (h : PrepareInsertOrUpdateSQL ts cols fields prim sets iv uv = .ok r) :
    r.values = iv ++ iv ++ uv := by
  cases hrw : rewriteUpdateSetCols sets with
  | error e =>
    simp [PrepareInsertOrUpdateSQL, hrw, bind, Except.bind] at h
  | ok sets2 =>
    rw [prepare_of_rewrite ts cols fields prim sets sets2 iv uv hrw] at h
    cases h
    rfl

theorem assignKey_append (col expr : Str) (h : '=' ∉ col) :
    assignKey (col ++ '=' :: expr) = col := by
  induction col with
  | nil => simp [assignKey]
  | cons c cs ih =>
    have hc : ¬ c = '=' := fun h1 => h (by simp [h1])
    have hcs : '=' ∉ cs := fun h1 => h (List.mem_cons_of_mem _ h1)
    have hb : (c != '=') = true := by simp [hc]
    have := ih hcs
    simp only [assignKey] at this
    simp only [assignKey, List.cons_append, List.takeWhile_cons, hb, if_true, this]

theorem assignVal_append (col expr : Str) (h : '=' ∉ col) :
    assignVal (col ++ '=' :: expr) = expr := by
  induction col with
  | nil => simp [assignVal]
  | cons c cs ih =>
    have hc : ¬ c = '=' := fun h1 => h (by simp [h1])
    have hcs : '=' ∉ cs := fun h1 => h (List.mem_cons_of_mem _ h1)
    have hb : (c != '=') = true := by simp [hc]
    have := ih hcs
    simp only [assignVal] at this
    simp only [assignVal, List.cons_append, List.dropWhile_cons, hb, if_true, this]

theorem mem_append_eq (col expr : Str) : '=' ∈ col ++ '=' :: expr := by simp

theorem rewrittenSetCol_append (col expr : Str) (h : '=' ∉ col) :
    rewrittenSetCol (col ++ '=' :: expr)
      = "T1.".toList ++ strings.Trim (strings.TrimSpace col) keyCutset ++ " = ".toList
          ++ strings.TrimSpace expr := by
  rw [rewrittenSetCol, assignKey_append col expr h, assignVal_append col expr h]
  rfl

theorem dropWhile_of_head (f : Char → Bool) (l : Str) (h : l.head?.any f = false) :
    l.dropWhile f = l := by
  cases l with
  | nil => rfl
  | cons a t =>
    have : f a = false := by simpa using h
    simp [List.dropWhile_cons, this]

theorem trimFunc_of_not_surrounded (f : Char → Bool) (s : Str)
    (h : surrounded f s = false) : strings.TrimFunc s f = s := by
  simp only [surrounded, Bool.or_eq_false_iff] at h
  have h2 : s.reverse.head?.any f = false := by
    rw [List.head?_reverse]
    exact h.2
  rw [strings.TrimFunc, strings.TrimLeftFunc, strings.TrimRightFunc, dropWhile_of_head f s h.1,
    dropWhile_of_head f s.reverse h2, List.reverse_reverse]

theorem rewrittenSetCol_bare (p : Str × Str) (h : '=' ∉ p.1) (hb : bareAssignment p) :
    rewrittenSetCol (p.1 ++ '=' :: p.2) = "T1.".toList ++ p.1 ++ " = ".toList ++ p.2 := by
  obtain ⟨h1, h2, h3⟩ := hb
  rw [rewrittenSetCol_append p.1 p.2 h, strings.TrimSpace, strings.TrimSpace,
    trimFunc_of_not_surrounded _ _ h1, trimFunc_of_not_surrounded _ _ h3, strings.Trim,
    trimFunc_of_not_surrounded _ _ h2]

theorem count_join (c : Char) (sep : Str) (hsep : sep.count c = 0) (xs : List Str) :
    (strings.Join xs sep).count c = (xs.map (List.count c)).sum := by
  induction xs with
  | nil => simp [strings.Join]
  | cons a rest ih =>
    cases rest with
    | nil => simp [strings.Join]
    | cons b rest2 =>
      rw [strings.Join, List.count_append, List.count_append, hsep, ih]
      simp

theorem count_dropWhile (c : Char) (f : Char → Bool) (hc : f c = false) (l : Str) :
    (l.dropWhile f).count c = l.count c := by
  induction l with
  | nil => rfl
  | cons a t ih =>
    by_cases ha : f a = true
    · have hne : a ≠ c := fun h1 => by rw [h1, hc] at ha; exact Bool.noConfusion ha
      rw [List.dropWhile_cons, if_pos ha, ih, List.count_cons_of_ne hne.symm]
    · rw [List.dropWhile_cons, if_neg ha]

theorem count_trimFunc (c : Char) (f : Char → Bool) (hc : f c = false) (s : Str) :
    (strings.TrimFunc s f).count c = s.count c := by
  rw [strings.TrimFunc, strings.TrimRightFunc, strings.TrimLeftFunc, List.count_reverse,
    count_dropWhile c f hc, List.count_reverse, count_dropWhile c f hc]

theorem assign_split (s : Str) (h : '=' ∈ s) : s = assignKey s ++ '=' :: assignVal s := by
  induction s with
  | nil => simp at h
  | cons c cs ih =>
    by_cases hc : c = '='
    · subst hc
      simp [assignKey, assignVal]
    · have hmem : '=' ∈ cs := by
        rcases List.mem_cons.mp h with h1 | h1
        · exact absurd h1.symm hc
        · exact h1
      have hb : (c != '=') = true := by simp [hc]
      have := ih hmem
      simp only [assignKey, assignVal] at this
      simp only [assignKey, assignVal, List.takeWhile_cons, List.dropWhile_cons, hb, if_true,
        List.cons_append]
      exact congrArg (List.cons c) this

theorem placeholders_rewrittenSetCol (s : Str) (h : '=' ∈ s) :
    placeholders (rewrittenSetCol s) = placeholders s := by
  have hsplit := assign_split s h
  have h1 : (strings.Trim (strings.TrimSpace (assignKey s)) "\x60\"".toList).count '?'
      = (assignKey s).count '?' := by
    rw [strings.Trim, count_trimFunc '?' _ (by decide), strings.TrimSpace,
      count_trimFunc '?' _ (by decide)]
  have h2 : (strings.TrimSpace (assignVal s)).count '?' = (assignVal s).count '?' := by
    rw [strings.TrimSpace, count_trimFunc '?' _ (by decide)]
  have h3 : placeholders s = (assignKey s).count '?' + (assignVal s).count '?' := by
    conv_lhs => rw [hsplit]
    rw [placeholders, List.count_append, List.count_cons_of_ne (by decide)]
  rw [h3, placeholders, rewrittenSetCol, List.count_append, List.count_append,
    List.count_append, h1, h2]
  have h4 : "T1.".toList.count '?' = 0 := by decide
  have h5 : " = ".toList.count '?' = 0 := by decide
  omega

theorem placeholders_setValues (sets : List Str) (h : ∀ s ∈ sets, '=' ∈ s) :
    placeholders (strings.Join (sets.map rewrittenSetCol) ", ".toList)
      = (sets.map placeholders).sum := by
  rw [placeholders, count_join '?' _ (by decide), List.map_map]
  congr 1
  exact List.map_congr_left (fun s hs => placeholders_rewrittenSetCol s (h s hs))

theorem sum_map_const_one {β : Type} (f : β → Nat) (l : List β) (h : ∀ x ∈ l, f x = 1) :
    (l.map f).sum = l.length := by
  induction l with
  | nil => rfl
  | cons a t ih =>
    have ha := h a (by simp)
    have ht := ih (fun x hx => h x (List.mem_cons_of_mem _ hx))
    simp only [List.map_cons, List.sum_cons, ha, ht, List.length_cons]
    omega

theorem sum_map_const_zero {β : Type} (f : β → Nat) (l : List β) (h : ∀ x ∈ l, f x = 0) :
    (l.map f).sum = 0 := by
  induction l with
  | nil => rfl
  | cons a t ih =>
    have ha := h a (by simp)
    have ht := ih (fun x hx => h x (List.mem_cons_of_mem _ hx))
    simp only [List.map_cons, List.sum_cons, ha, ht]

theorem placeholders_selectValues (cols : List Str) (h : ∀ c ∈ cols, '?' ∉ c) :
    placeholders (strings.Join (buildSelectValues cols) ", ".toList) = cols.length := by
  rw [placeholders, count_join '?' _ (by decide), buildSelectValues_eq, List.map_map]
  apply sum_map_const_one
  intro c hc
  have hzero : c.count '?' = 0 := List.count_eq_zero.mpr (h c hc)
  have h0 : "? AS ".toList.count '?' = 1 := by decide
  simp only [Function.comp, selectTerm, List.count_append, hzero, h0]

theorem placeholders_onConditions (prim : List Str) (h : ∀ c ∈ prim, '?' ∉ c) :
    placeholders (strings.Join (buildOnConditions prim) " AND ".toList) = 0 := by
  rw [placeholders, count_join '?' _ (by decide), buildOnConditions_eq, List.map_map]
  apply sum_map_const_zero
  intro c hc
  have hzero : c.count '?' = 0 := List.count_eq_zero.mpr (h c hc)
  have h0 : "T1.".toList.count '?' = 0 := by decide
  have h1 : "=T2.".toList.count '?' = 0 := by decide
  simp only [Function.comp, onTerm, List.count_append, hzero, h0, h1]

theorem placeholders_columns (cols : List Str) (h : ∀ c ∈ cols, '?' ∉ c) :
    placeholders (strings.Join cols ", ".toList) = 0 := by
  rw [placeholders, count_join '?' _ (by decide)]
  exact sum_map_const_zero _ _ (fun c hc => List.count_eq_zero.mpr (h c hc))

theorem placeholders_fields (fields : List Str) (h : ∀ f ∈ fields, f = ['?']) :
    placeholders (strings.Join fields ", ".toList) = fields.length := by
  rw [placeholders, count_join '?' _ (by decide)]
  apply sum_map_const_one
  intro f hf
  rw [h f hf]
  decide

theorem placeholders_mergeSQL (table sv oc cols vals setv : Str) :
    placeholders (mergeSQL table sv oc cols vals setv)
      = placeholders table + placeholders sv + placeholders oc + placeholders cols
          + placeholders vals + placeholders setv := by
  have h1 : "MERGE INTO \"".toList.count '?' = 0 := by decide
  have h2 : "\" T1 USING (SELECT ".toList.count '?' = 0 := by decide
  have h3 : " FROM DUAL) T2 ON (".toList.count '?' = 0 := by decide
  have h4 : ") WHEN NOT MATCHED THEN INSERT(".toList.count '?' = 0 := by decide
  have h5 : ") VALUES (".toList.count '?' = 0 := by decide
  have h6 : ") WHEN MATCHED THEN UPDATE ".toList.count '?' = 0 := by decide
  simp only [placeholders, mergeSQL, List.count_append, h1, h2, h3, h4, h5, h6]
  omega

theorem createTableLoop_fold (columns : List IColumnSpec) (st : List Str × List Str) :
    columns.foldl (fun (st : List Str × List Str) c =>
      let cols := st.1 ++ [c.DefinitionString]
      if c.IsPrimary then
        (cols, st.2 ++ ["\x60".toList ++ c.Name ++ "\x60".toList])
      else (cols, st.2)) st
    = (st.1 ++ columns.map (fun c => c.DefinitionString),
       st.2 ++ (columns.filter (fun c => c.IsPrimary)).map
         (fun c => quoted "\x60".toList c.Name)) := by
  induction columns generalizing st with
  | nil => simp
  | cons c rest ih =>
    rw [List.foldl_cons, ih]
    by_cases hc : c.IsPrimary = true
    · simp [hc, quoted]
    · simp [hc]

theorem createTableLoop_eq (columns : List IColumnSpec) :
    createTableLoop columns
      = (columns.map (fun c => c.DefinitionString),
         (columns.filter (fun c => c.IsPrimary)).map
           (fun c => quoted "\x60".toList c.Name)) := by
  rw [createTableLoop, createTableLoop_fold]
  simp

theorem createTableItems_eq (columns : List IColumnSpec) :
    createTableItems columns
      = columns.map (fun c => c.DefinitionString) ++
          (if (columns.filter (fun c => c.IsPrimary)) = [] then []
           else [primaryKeyClause ((columns.filter (fun c => c.IsPrimary)).map
             (fun c => quoted "\x60".toList c.Name))]) := by
  rw [createTableItems, createTableLoop_eq]
  by_cases h : columns.filter (fun c => c.IsPrimary) = []
  · simp [h]
  · have hpos : 0 < ((columns.filter (fun c => c.IsPrimary)).map
        (fun c => quoted "\x60".toList c.Name)).length := by
      rw [List.length_map]
      exact List.length_pos.mpr h
    simp only [gt_iff_lt, hpos, if_true, h, if_false, primaryKeyClause]

theorem filter_primary_eq_nil_iff (columns : List IColumnSpec) :
    columns.filter (fun c => c.IsPrimary) = [] ↔ ¬ ∃ c ∈ columns, c.IsPrimary = true := by
  simp [List.filter_eq_nil_iff]

theorem getCreateSQLs_eq {ι : Type} (createIndexSQL : ITableSpec ι → ι → Str)
    (ts : ITableSpec ι) :
    GetCreateSQLs createIndexSQL ts
      = createTableSQL ts :: ts.Indexes.map (createIndexSQL ts) := by
  rw [GetCreateSQLs]
  exact foldl_append_singleton (createIndexSQL ts) ts.Indexes [createTableSQL ts]

theorem foldl_digits (w : Str) (init : Nat) :
    w.foldl (fun n ch => n * 10 + (ch.toNat - '0'.toNat)) init
      = init * 10 ^ w.length + decimalValue w := by
  induction w generalizing init with
  | nil => simp [decimalValue]
  | cons c t ih =>
    rw [List.foldl_cons, ih]
    have hdv : decimalValue (c :: t)
        = decimalValue t + 10 ^ t.length * (c.toNat - '0'.toNat) := by
      simp only [decimalValue, List.reverse_cons, List.map_append, List.map_cons, List.map_nil,
        Nat.ofDigits_append, Nat.ofDigits_singleton, List.length_map, List.length_reverse]
    rw [hdv, List.length_cons, pow_succ]
    ring

theorem matchInteger_iff (w : Str) : regutils.MatchInteger w = true ↔ isDecimal w := by
  cases w with
  | nil => simp [regutils.MatchInteger, isDecimal]
  | cons c t =>
    simp [regutils.MatchInteger, isDecimal]

theorem atoi_of_decimal (w : Str) (h : isDecimal w) :
    (strconv.Atoi w).1
      = if decimalValue w ≥ 2 ^ 63 then (2 ^ 63 : Int) - 1 else (decimalValue w : Int) := by
  obtain ⟨hne, hall⟩ := h
  cases w with
  | nil => exact absurd rfl hne
  | cons c t =>
    have hc := hall c (by simp)
    have hminus : ¬ c = '-' := fun h1 => by
      rw [h1] at hc
      exact absurd hc.1 (by decide)
    have hplus : ¬ c = '+' := fun h1 => by
      rw [h1] at hc
      exact absurd hc.1 (by decide)
    have hallb : (c :: t).all (fun ch => decide ('0' ≤ ch ∧ ch ≤ '9')) = true := by
      rw [List.all_eq_true]
      intro x hx
      exact decide_eq_true (hall x hx)
    have hfold := foldl_digits (c :: t) 0
    rw [Nat.zero_mul, Nat.zero_add] at hfold
    simp only [strconv.Atoi, hminus, hplus, or_self, if_false, decide_False, List.isEmpty_cons,
      hallb, if_true, hfold, Bool.false_eq_true]
    by_cases hbig : decimalValue (c :: t) ≥ 2 ^ 63
    · simp only [hbig, if_true]
    · simp only [hbig, if_false]

theorem getTextSqlType_varchar (tagmap : Str → Option Str)
    (h : isDecimal ((tagmap TAG_WIDTH).getD []))
    (hpos : 0 < decimalValue ((tagmap TAG_WIDTH).getD []))
    (hle : decimalValue ((tagmap TAG_WIDTH).getD []) ≤ 975) :
    getTextSqlType tagmap = "VARCHAR".toList := by
  have hcond : (decide (((tagmap TAG_WIDTH).getD []).length > 0)
      && regutils.MatchInteger ((tagmap TAG_WIDTH).getD [])) = true := by
    rw [Bool.and_eq_true]
    exact ⟨decide_eq_true (List.length_pos.mpr h.1), (matchInteger_iff _).mpr h⟩
  have hsmall : ¬ decimalValue ((tagmap TAG_WIDTH).getD []) ≥ 2 ^ 63 := by omega
  have hw : ¬ (((decimalValue ((tagmap TAG_WIDTH).getD []) : Nat) : Int) = 0
      ∨ ((decimalValue ((tagmap TAG_WIDTH).getD []) : Nat) : Int) > 975) := by omega
  simp only [getTextSqlType, hcond, if_true, atoi_of_decimal _ h, hsmall, if_false, hw]

theorem getTextSqlType_text (tagmap : Str → Option Str)
    (h : ¬ (isDecimal ((tagmap TAG_WIDTH).getD []) ∧
      0 < decimalValue ((tagmap TAG_WIDTH).getD []) ∧
      decimalValue ((tagmap TAG_WIDTH).getD []) ≤ 975)) :
    getTextSqlType tagmap = "TEXT".toList := by
  by_cases hdec : isDecimal ((tagmap TAG_WIDTH).getD [])
  · have hcond : (decide (((tagmap TAG_WIDTH).getD []).length > 0)
        && regutils.MatchInteger ((tagmap TAG_WIDTH).getD [])) = true := by
      rw [Bool.and_eq_true]
      exact ⟨decide_eq_true (List.length_pos.mpr hdec.1), (matchInteger_iff _).mpr hdec⟩
    have hrange : decimalValue ((tagmap TAG_WIDTH).getD []) = 0
        ∨ 975 < decimalValue ((tagmap TAG_WIDTH).getD []) := by
      by_contra hc
      exact h ⟨hdec, by omega, by omega⟩
    by_cases hbig : decimalValue ((tagmap TAG_WIDTH).getD []) ≥ 2 ^ 63
    · simp only [getTextSqlType, hcond, if_true, atoi_of_decimal _ hdec, hbig]
      rw [if_pos (by omega)]
    · have hw : (((decimalValue ((tagmap TAG_WIDTH).getD []) : Nat) : Int) = 0
          ∨ ((decimalValue ((tagmap TAG_WIDTH).getD []) : Nat) : Int) > 975) := by omega
      simp only [getTextSqlType, hcond, if_true, atoi_of_decimal _ hdec, hbig, if_false, hw]
  · have hcond : (decide (((tagmap TAG_WIDTH).getD []).length > 0)
        && regutils.MatchInteger ((tagmap TAG_WIDTH).getD [])) = false := by
      rw [Bool.and_eq_false_iff]
      right
      rw [Bool.eq_false_iff]
      exact fun hm => hdec ((matchInteger_iff _).mp hm)
    simp only [getTextSqlType, hcond, Bool.false_eq_true, if_false, true_or, if_true]

theorem width_option_iff (tagmap : Str → Option Str) :
    (∃ w, tagmap TAG_WIDTH = some w ∧ isDecimal w ∧ 0 < decimalValue w ∧ decimalValue w ≤ 975)
      ↔ (isDecimal ((tagmap TAG_WIDTH).getD []) ∧
          0 < decimalValue ((tagmap TAG_WIDTH).getD []) ∧
          decimalValue ((tagmap TAG_WIDTH).getD []) ≤ 975) := by
  constructor
  · rintro ⟨w, hw, hrest⟩
    rw [hw]
    exact hrest
  · intro h
    cases hw : tagmap TAG_WIDTH with
    | none =>
      rw [hw] at h
      exact absurd rfl h.1.1
    | some w =>
      rw [hw] at h
      exact ⟨w, rfl, h⟩

theorem foldl_filter_append {β γ : Type} (p : β → Bool) (f : β → γ) (l : List β)
    (init : List γ) :
    l.foldl (fun acc x => if p x then acc else acc ++ [f x]) init
      = init ++ (l.filter (fun x => !p x)).map f := by
  induction l generalizing init with
  | nil => simp
  | cons a rest ih =>
    rw [List.foldl_cons, ih]
    by_cases ha : p a = true
    · simp [ha]
    · simp [ha]

theorem fetchIndexes_ok {ι κ γ ε : Type}
    (NewTableIndex : ITableSpec ι → Str → List Str → Bool → κ) (ts : ITableSpec ι)
    (records : List sIndexRecord) :
    FetchIndexesAndConstraints (γ := γ) (ε := ε) NewTableIndex ts (records, none)
      = (some ((records.filter (fun r => !r.isPrimary)).map
          (fun r => NewTableIndex ts r.indexName r.colnames false)), none, none) := by
  have h := foldl_filter_append (fun r : sIndexRecord => r.isPrimary)
    (fun r => NewTableIndex ts r.indexName r.colnames false) records []
  rw [List.nil_append] at h
  simp only [FetchIndexesAndConstraints]
  rw [← h]

theorem fetchColumnSpecs_ok {σ κ ε : Type} (toColumnSpec : σ → κ) (infos : List σ) :
    FetchTableColumnSpecs (ε := ε) toColumnSpec (infos, none)
      = (some (infos.map toColumnSpec), none) := by
  have h := foldl_append_singleton toColumnSpec infos []
  rw [List.nil_append] at h
  simp only [FetchTableColumnSpecs, h]

theorem indexFrom_nonneg_iff (substr s : Str) (i : Nat) :
    0 ≤ strings.indexFrom substr s i ↔ substr <:+: s := by
  induction s generalizing i with
  | nil =>
    by_cases h : substr = []
    · simp [strings.indexFrom, h]
    · simp [strings.indexFrom, h]
  | cons c cs ih =>
    rw [strings.indexFrom, List.infix_cons_iff]
    by_cases hp : substr.isPrefixOf (c :: cs) = true
    · rw [if_pos hp]
      have := List.isPrefixOf_iff_prefix.mp hp
      constructor
      · intro _
        exact Or.inl this
      · intro _
        exact Int.ofNat_nonneg i
    · rw [if_neg hp, ih]
      have hn : ¬ substr <+: c :: cs := fun h => hp (List.isPrefixOf_iff_prefix.mpr h)
      constructor
      · intro h
        exact Or.inr h
      · rintro (h | h)
        · exact absurd h hn
        · exact h

theorem contains_iff_infix (s substr : Str) :
    strings.Contains s substr = true ↔ substr <:+: s := by
  rw [strings.Contains, decide_eq_true_iff, strings.Index, ge_iff_le, indexFrom_nonneg_iff]

theorem step_eq (fl : fileLine) (frame : runtime.Frame) :
    getFileLine.step fl frame
      = ⟨if isOneCloudFrame frame && fl.oneCloudFile == [] then frame.File else fl.oneCloudFile,
         if isOneCloudFrame frame && fl.oneCloudFile == [] then frame.Line else fl.oneCloudLine,
         if isMarketFrame frame && fl.marketFile == [] then frame.File else fl.marketFile,
         if isMarketFrame frame && fl.marketFile == [] then frame.Line else fl.marketLine⟩ := by
  simp only [getFileLine.step, isOneCloudFrame, isMarketFrame]
  split <;> split <;> rfl

theorem step_zero_frame (fl : fileLine) : getFileLine.step fl ⟨[], 0⟩ = fl := by
  have h1 : isOneCloudFrame ⟨[], 0⟩ = false := by decide
  have h2 : isMarketFrame ⟨[], 0⟩ = false := by decide
  rw [step_eq, h1, h2]
  rfl

theorem loop_eq_foldl (frames : List runtime.Frame) (fl : fileLine) :
    getFileLine.loop fl frames = frames.foldl getFileLine.step fl := by
  induction frames generalizing fl with
  | nil => exact step_zero_frame fl
  | cons frame rest ih =>
    cases rest with
    | nil => rfl
    | cons next rest2 =>
      rw [getFileLine.loop, ih]
      rfl

theorem firstMatch_cons (p : runtime.Frame → Bool) (hp : ∀ f, p f = true → f.File ≠ [])
    (file : Str) (line : Int) (frame : runtime.Frame) (rest : List runtime.Frame) :
    firstMatch p (if p frame && file == [] then frame.File else file)
        (if p frame && file == [] then frame.Line else line) rest
      = firstMatch p file line (frame :: rest) := by
  by_cases hfile : file = []
  · subst hfile
    by_cases hpf : p frame = true
    · have hne := hp frame hpf
      simp [firstMatch, hpf, hne, List.find?_cons]
    · have hpf2 : p frame = false := by simpa using hpf
      simp [firstMatch, hpf2, List.find?_cons]
  · have hb : (file == []) = false := by simpa using hfile
    simp [firstMatch, hfile, hb]

theorem oneCloud_file_ne_nil (f : runtime.Frame) (h : isOneCloudFrame f = true) :
    f.File ≠ [] := by
  intro hnil
  rw [isOneCloudFrame, hnil] at h
  exact absurd h (by decide)

theorem market_file_ne_nil (f : runtime.Frame) (h : isMarketFrame f = true) :
    f.File ≠ [] := by
  intro hnil
  rw [isMarketFrame, hnil] at h
  exact absurd h (by decide)

theorem foldl_step_eq (frames : List runtime.Frame) (fl : fileLine) :
    frames.foldl getFileLine.step fl
      = ⟨(firstMatch isOneCloudFrame fl.oneCloudFile fl.oneCloudLine frames).1,
         (firstMatch isOneCloudFrame fl.oneCloudFile fl.oneCloudLine frames).2,
         (firstMatch isMarketFrame fl.marketFile fl.marketLine frames).1,
         (firstMatch isMarketFrame fl.marketFile fl.marketLine frames).2⟩ := by
  induction frames generalizing fl with
  | nil =>
    cases fl
    simp [firstMatch]
  | cons frame rest ih =>
    rw [List.foldl_cons, ih, step_eq]
    simp only [firstMatch_cons isOneCloudFrame oneCloud_file_ne_nil,
      firstMatch_cons isMarketFrame market_file_ne_nil]

theorem getFileLine_eq (frames : List runtime.Frame) :
    getFileLine frames
      = ⟨(firstMatch isOneCloudFrame [] 0 frames).1, (firstMatch isOneCloudFrame [] 0 frames).2,
         (firstMatch isMarketFrame [] 0 frames).1, (firstMatch isMarketFrame [] 0 frames).2⟩ := by
  rw [getFileLine, loop_eq_foldl, foldl_step_eq]

theorem firstMatch_nil_eq (p : runtime.Frame → Bool) (frames : List runtime.Frame) :
    firstMatch p [] 0 frames
      = (((frames.find? p).map (fun f => f.File)).getD [],
         ((frames.find? p).map (fun f => f.Line)).getD 0) := by
  cases h : frames.find? p <;> simp [firstMatch, h]

theorem hasPair_iff (a b : Char) (l : Str) : hasPair a b l = true ↔ [a, b] <:+: l := by
  induction l with
  | nil => simp [hasPair]
  | cons x t ih =>
    rw [List.infix_cons_iff, ← ih]
    cases t with
    | nil =>
      simp [hasPair, List.prefix_cons_iff]
    | cons y rest =>
      simp only [hasPair, Bool.or_eq_true, Bool.and_eq_true, beq_iff_eq]
      have hpre : [a, b] <+: x :: y :: rest ↔ (x = a ∧ y = b) := by
        rw [List.cons_prefix_cons, List.cons_prefix_cons]
        constructor
        · rintro ⟨ha, hb, _⟩
          exact ⟨ha.symm, hb.symm⟩
        · rintro ⟨ha, hb⟩
          exact ⟨ha.symm, hb.symm, List.nil_prefix⟩
      rw [hpre]

theorem hasPair_of_not_mem (a b : Char) (l : Str) (h : a ∉ l) : hasPair a b l = false := by
  induction l with
  | nil => rfl
  | cons x t ih =>
    have hx : ¬ x = a := fun h1 => h (by simp [h1])
    have ht : a ∉ t := fun h1 => h (List.mem_cons_of_mem _ h1)
    cases t with
    | nil => rfl
    | cons y rest =>
      have := ih ht
      simp [hasPair, hx, this]

theorem hasPair_append_of_head (a b : Char) (x y : Str) (hy : y.head? ≠ some b) :
    hasPair a b (x ++ y) = (hasPair a b x || hasPair a b y) := by
  induction x with
  | nil => simp [hasPair]
  | cons c t ih =>
    cases t with
    | nil =>
      cases y with
      | nil => simp [hasPair]
      | cons d rest =>
        have hd : ¬ d = b := fun h1 => hy (by simp [h1])
        simp [hasPair, hd]
    | cons d rest =>
      have := ih
      simp only [List.cons_append] at this
      show ((c == a && d == b) || hasPair a b (d :: (rest ++ y)))
        = (((c == a && d == b) || hasPair a b (d :: rest)) || hasPair a b y)
      rw [this, Bool.or_assoc]

theorem hasPair_append_of_last (a b : Char) (x y : Str) (hx : x.getLast? ≠ some a) :
    hasPair a b (x ++ y) = (hasPair a b x || hasPair a b y) := by
  induction x with
  | nil => simp [hasPair]
  | cons c t ih =>
    cases t with
    | nil =>
      have hc : ¬ c = a := fun h1 => hx (by simp [h1])
      cases y with
      | nil => simp [hasPair]
      | cons d rest => simp [hasPair, hc]
    | cons d rest =>
      have hx2 : (d :: rest).getLast? ≠ some a := by
        rw [List.getLast?_cons_cons] at hx
        exact hx
      have := ih hx2
      simp only [List.cons_append] at this
      show ((c == a && d == b) || hasPair a b (d :: (rest ++ y)))
        = (((c == a && d == b) || hasPair a b (d :: rest)) || hasPair a b y)
      rw [this, Bool.or_assoc]

theorem digitChar_isDigit : ∀ d, d < 10 → (Nat.digitChar d).isDigit = true := by decide

theorem toDigitsCore_isDigit (fuel n : Nat) (ds : List Char)
    (h : ∀ c ∈ ds, c.isDigit = true) :
    ∀ c ∈ Nat.toDigitsCore 10 fuel n ds, c.isDigit = true := by
  induction fuel generalizing n ds with
  | zero => exact h
  | succ fuel ih =>
    have hd := digitChar_isDigit (n % 10) (Nat.mod_lt n (by decide))
    have hds : ∀ c ∈ Nat.digitChar (n % 10) :: ds, c.isDigit = true := by
      intro c hc
      rcases List.mem_cons.mp hc with h1 | h1
      · rw [h1]
        exact hd
      · exact h c h1
    rw [Nat.toDigitsCore]
    by_cases hz : n / 10 = 0
    · simp only [hz, if_true]
      exact hds
    · simp only [hz, if_false]
      exact ih (n / 10) _ hds

theorem fmtInt_chars (i : Int) : ∀ c ∈ fmtInt i, c = '-' ∨ c.isDigit = true := by
  intro c hc
  rw [fmtInt] at hc
  by_cases hneg : i < 0
  · rw [if_pos hneg] at hc
    rcases List.mem_cons.mp hc with h1 | h1
    · exact Or.inl h1
    · exact Or.inr (toDigitsCore_isDigit _ _ [] (by simp) c h1)
  · rw [if_neg hneg] at hc
    exact Or.inr (toDigitsCore_isDigit _ _ [] (by simp) c hc)

theorem fmtInt_not_mem (i : Int) (c : Char) (h1 : c ≠ '-') (h2 : c.isDigit = false) :
    c ∉ fmtInt i := by
  intro hc
  rcases fmtInt_chars i c hc with h | h
  · exact h1 h
  · rw [h2] at h
    exact Bool.noConfusion h

theorem flowComment_not_mem (c : Char) (file : Str) (line : Int) (action uid : Str)
    (hlit : c ∉ "/* product=tke-market, file=, line=, flow=, identity= */".toList)
    (h1 : c ≠ '-') (h2 : c.isDigit = false)
    (hf : c ∉ file) (ha : c ∉ action) (hu : c ∉ uid) :
    c ∉ flowComment file line action uid := by
  have hline := fmtInt_not_mem line c h1 h2
  intro hmem
  simp only [flowComment, List.mem_append] at hmem
  rcases hmem with h | h | h | h | h | h | h | h | h
  · exact hlit (by
      have : "/* product=tke-market, file=, line=, flow=, identity= */".toList
          = "/* product=tke-market, file=".toList ++ ", line=, flow=, identity= */".toList := by
        decide
      rw [this]
      exact List.mem_append_left _ h)
  · exact hf h
  · exact hlit (by
      have : "/* product=tke-market, file=, line=, flow=, identity= */".toList
          = "/* product=tke-market, file=".toList ++ (", line=".toList
            ++ ", flow=, identity= */".toList) := by decide
      rw [this]
      exact List.mem_append_right _ (List.mem_append_left _ h))
  · exact hline h
  · exact hlit (by
      have : "/* product=tke-market, file=, line=, flow=, identity= */".toList
          = "/* product=tke-market, file=, line=".toList ++ (", flow=".toList
            ++ ", identity= */".toList) := by decide
      rw [this]
      exact List.mem_append_right _ (List.mem_append_left _ h))
  · exact ha h
  · exact hlit (by
      have : "/* product=tke-market, file=, line=, flow=, identity= */".toList
          = "/* product=tke-market, file=, line=, flow=".toList ++ (", identity=".toList
            ++ " */".toList) := by decide
      rw [this]
      exact List.mem_append_right _ (List.mem_append_left _ h))
  · exact hu h
  · exact hlit (by
      have : "/* product=tke-market, file=, line=, flow=, identity= */".toList
          = "/* product=tke-market, file=, line=, flow=, identity=".toList ++ " */".toList := by
        decide
      rw [this]
      exact List.mem_append_right _ h)

theorem flowComment_eq_concat (file : Str) (line : Int) (action uid : Str) :
    flowComment file line action uid
      = ("/* product=tke-market, file=".toList ++ (file ++ (", line=".toList ++ (fmtInt line
          ++ (", flow=".toList ++ (action ++ (", identity=".toList ++ (uid ++ " *".toList))))))))
        ++ ['/'] := by
  simp [flowComment]

theorem flowComment_body_no_terminator (file : Str) (line : Int) (action uid : Str)
    (hf : hasPair '*' '/' file = false) (ha : hasPair '*' '/' action = false)
    (hu : hasPair '*' '/' uid = false) :
    hasPair '*' '/' ("/* product=tke-market, file=".toList ++ (file ++ (", line=".toList
      ++ (fmtInt line ++ (", flow=".toList ++ (action ++ (", identity=".toList
      ++ (uid ++ " *".toList)))))))) = false := by
  have hline : hasPair '*' '/' (fmtInt line) = false :=
    hasPair_of_not_mem _ _ _ (fmtInt_not_mem line '*' (by decide) (by decide))
  rw [hasPair_append_of_last _ _ _ _ (by decide),
    hasPair_append_of_head _ _ file _ (by simp),
    hasPair_append_of_last _ _ ", line=".toList _ (by decide),
    hasPair_append_of_head _ _ (fmtInt line) _ (by simp),
    hasPair_append_of_last _ _ ", flow=".toList _ (by decide),
    hasPair_append_of_head _ _ action _ (by simp),
    hasPair_append_of_last _ _ ", identity=".toList _ (by decide),
    hasPair_append_of_head _ _ uid _ (by simp), hf, ha, hu, hline]
  decide

theorem flowComment_wellFormed (file : Str) (line : Int) (action uid : Str)
    (hf : commentSafe file) (ha : commentSafe action) (hu : commentSafe uid) :
    wellFormedComment (flowComment file line action uid) := by
  have hpair : ∀ s, ¬ "*/".toList <:+: s → hasPair '*' '/' s = false := by
    intro s hs
    rw [Bool.eq_false_iff]
    exact fun h => hs ((hasPair_iff _ _ _).mp h)
  have hsuf : "*/".toList <:+ flowComment file line action uid :=
    ⟨"/* product=tke-market, file=".toList ++ (file ++ (", line=".toList ++ (fmtInt line
      ++ (", flow=".toList ++ (action ++ (", identity=".toList ++ (uid ++ " ".toList))))))),
      by simp [flowComment]⟩
  refine ⟨⟨_, rfl⟩, hsuf, ?_, ?_, ?_⟩
  · exact flowComment_not_mem _ file line action uid (by decide) (by decide) (by decide)
      hf.1 ha.1 hu.1
  · exact flowComment_not_mem _ file line action uid (by decide) (by decide) (by decide)
      hf.2.1 ha.2.1 hu.2.1
  · rw [flowComment_eq_concat, List.dropLast_concat]
    intro hinf
    have := (hasPair_iff _ _ _).mpr hinf
    rw [flowComment_body_no_terminator file line action uid (hpair _ hf.2.2) (hpair _ ha.2.2)
      (hpair _ hu.2.2)] at this
    exact Bool.noConfusion this

theorem firstMatch_of_find_some (p : runtime.Frame → Bool) (frames : List runtime.Frame)
    (f : runtime.Frame) (h : frames.find? p = some f) :
    firstMatch p [] 0 frames = (f.File, f.Line) := by
  simp [firstMatch, h]

theorem firstMatch_of_find_none (p : runtime.Frame → Bool) (frames : List runtime.Frame)
    (h : frames.find? p = none) : firstMatch p [] 0 frames = ([], 0) := by
  simp [firstMatch, h]

theorem find_some_of_exists (p : runtime.Frame → Bool) (frames : List runtime.Frame)
    (h : ∃ f ∈ frames, p f = true) : ∃ f, frames.find? p = some f ∧ f ∈ frames ∧ p f = true := by
  cases hfind : frames.find? p with
  | none =>
    obtain ⟨f, hf, hp⟩ := h
    have := List.find?_eq_none.mp hfind f hf
    exact absurd hp this
  | some f =>
    exact ⟨f, rfl, List.mem_of_find?_eq_some hfind, List.find?_some hfind⟩

theorem find_none_of_forall (p : runtime.Frame → Bool) (frames : List runtime.Frame)
    (h : ∀ f ∈ frames, p f = false) : frames.find? p = none := by
  rw [List.find?_eq_none]
  intro f hf
  rw [h f hf]
  exact Bool.false_ne_true

theorem doExec_returned {α ρ : Type} (handle : Str → List α → ρ)
    (frames : List runtime.Frame) (uuid action table query : Str) (args : List α) :
    (DB.DoExec handle frames uuid action table query args).returned
      = handle (flowComment (getFileLine frames).GetFile (getFileLine frames).GetFileLine
          action uuid ++ query) args := by
  simp [DB.DoExec, flowComment]

theorem queryRow_returned {α ρ : Type} (handle : Str → List α → ρ)
    (frames : List runtime.Frame) (uuid action table query : Str) (args : List α) :
    (DB.QueryRow handle frames uuid action table query args).returned
      = handle (flowComment (getFileLine frames).GetFile (getFileLine frames).GetFileLine
          action uuid ++ query) args := by
  simp [DB.QueryRow, flowComment]

theorem query_returned {α ρ : Type} (handle : Str → List α → ρ)
    (frames : List runtime.Frame) (uuid action table query : Str) (args : List α) :
    (DB.Query handle frames uuid action table query args).returned
      = handle (flowComment (getFileLine frames).GetFile (getFileLine frames).GetFileLine
          action uuid ++ query) args := by
  simp [DB.Query, flowComment]

theorem stringLE_total (a b : Str) : stringLE a b = true ∨ stringLE b a = true := by
  induction a generalizing b with
  | nil => exact Or.inl rfl
  | cons x s ih =>
    cases b with
    | nil => exact Or.inr rfl
    | cons y t =>
      simp only [stringLE, Bool.or_eq_true, decide_eq_true_eq, Bool.and_eq_true, beq_iff_eq]
      rcases lt_trichotomy x y with h | h | h
      · exact Or.inl (Or.inl h)
      · rcases ih t with h2 | h2
        · exact Or.inl (Or.inr ⟨h, h2⟩)
        · exact Or.inr (Or.inr ⟨h.symm, h2⟩)
      · exact Or.inr (Or.inl h)

theorem stringLE_trans (a b c : Str) (hab : stringLE a b = true) (hbc : stringLE b c = true) :
    stringLE a c = true := by
  induction a generalizing b c with
  | nil => rfl
  | cons x s ih =>
    cases b with
    | nil => exact absurd hab (by simp [stringLE])
    | cons y t =>
      cases c with
      | nil => exact absurd hbc (by simp [stringLE])
      | cons z u =>
        simp only [stringLE, Bool.or_eq_true, decide_eq_true_eq, Bool.and_eq_true,
          beq_iff_eq] at hab hbc ⊢
        rcases hab with h1 | ⟨h1, h1r⟩
        · rcases hbc with h2 | ⟨h2, _⟩
          · exact Or.inl (lt_trans h1 h2)
          · exact Or.inl (h2 ▸ h1)
        · rcases hbc with h2 | ⟨h2, h2r⟩
          · exact Or.inl (h1 ▸ h2)
          · exact Or.inr ⟨h1.trans h2, ih t u h1r h2r⟩

theorem insertString_perm (x : Str) (l : List Str) : (insertString x l).Perm (x :: l) := by
  induction l with
  | nil => exact List.Perm.refl _
  | cons y rest ih =>
    by_cases h : stringLE x y = true
    · rw [insertString, if_pos h]
    · rw [insertString, if_neg h]
      exact (List.Perm.cons y ih).trans (List.Perm.swap x y rest)

theorem sortStrings_perm (l : List Str) : (sort.Strings l).Perm l := by
  induction l with
  | nil => exact List.Perm.refl _
  | cons x rest ih =>
    rw [sort.Strings]
    exact (insertString_perm x _).trans (List.Perm.cons x ih)

theorem insertString_pairwise (x : Str) (l : List Str)
    (h : l.Pairwise (fun a b => stringLE a b = true)) :
    (insertString x l).Pairwise (fun a b => stringLE a b = true) := by
  induction l with
  | nil => simp [insertString]
  | cons y rest ih =>
    rw [List.pairwise_cons] at h
    by_cases hxy : stringLE x y = true
    · rw [insertString, if_pos hxy, List.pairwise_cons]
      refine ⟨fun z hz => ?_, List.pairwise_cons.mpr h⟩
      rcases List.mem_cons.mp hz with hz1 | hz1
      · rw [hz1]
        exact hxy
      · exact stringLE_trans x y z hxy (h.1 z hz1)
    · rw [insertString, if_neg hxy, List.pairwise_cons]
      refine ⟨fun z hz => ?_, ih h.2⟩
      have hz2 : z ∈ x :: rest := (insertString_perm x rest).subset hz
      rcases List.mem_cons.mp hz2 with hz1 | hz1
      · rw [hz1]
        rcases stringLE_total x y with h1 | h1
        · exact absurd h1 hxy
        · exact h1
      · exact h.1 z hz1

theorem sortStrings_pairwise (l : List Str) :
    (sort.Strings l).Pairwise (fun a b => stringLE a b = true) := by
  induction l with
  | nil => exact List.Pairwise.nil
  | cons x rest ih =>
    rw [sort.Strings]
    exact insertString_pairwise x _ ih

end Lemmas

/-! ## The upsert planner -/

/-- C1: whenever `PrepareInsertOrUpdateSQL` returns, its parameter list is
`insertValues ++ insertValues ++ updateValues`, of length `2n+m` when there is one
insert value per insert column (`n` columns) and one update value per update
assignment (`m` assignments); and it does return, with that list, whenever every
assignment contains a `=`. -/
theorem prepare_values_order {ι α : Type} (ts : ITableSpec ι)
    (insertColNames insertFields onPrimaryCols updateSetCols : List Str)
    (insertValues updateValues : List α) :
    (∀ r, PrepareInsertOrUpdateSQL ts insertColNames insertFields onPrimaryCols
          updateSetCols insertValues updateValues = .ok r →
        r.values = insertValues ++ insertValues ++ updateValues ∧
        (insertValues.length = insertColNames.length →
          updateValues.length = updateSetCols.length →
          r.values.length = 2 * insertColNames.length + updateSetCols.length)) ∧
    ((∀ s ∈ updateSetCols, '=' ∈ s) →
      ∃ r, PrepareInsertOrUpdateSQL ts insertColNames insertFields onPrimaryCols
          updateSetCols insertValues updateValues = .ok r ∧
        r.values = insertValues ++ insertValues ++ updateValues) := by
  constructor
  · intro r hr
    have hv := prepare_values_of_ok ts _ _ _ _ _ _ r hr
    refine ⟨hv, fun h1 h2 => ?_⟩
    rw [hv]
    simp only [List.length_append]
    omega
  · intro h
    exact ⟨_, prepare_eq ts _ _ _ _ _ _ h, rfl⟩

/-- C1, at a call with two insert columns and one assignment: the five
parameters come out in the order 1, 2, 1, 2, 3. -/
theorem prepare_values_order_witness :
    ∃ r, PrepareInsertOrUpdateSQL (⟨"orders".toList, [], []⟩ : ITableSpec Unit)
        ["id".toList, "status".toList] ["?".toList, "?".toList] ["id".toList]
        ["status=?".toList] [1, 2] [3] = .ok r ∧ r.values = [1, 2, 1, 2, 3]
      ∧ r.values.length = 2 * 2 + 1 := by
  have h := prepare_values_order (⟨"orders".toList, [], []⟩ : ITableSpec Unit)
    ["id".toList, "status".toList] ["?".toList, "?".toList] ["id".toList]
    ["status=?".toList] [1, 2] [3]
  obtain ⟨r, hr, hv⟩ := h.2 (by decide)
  exact ⟨r, hr, hv, (h.1 r hr).2 rfl rfl⟩

/-- C2, as the code has it: for update assignments `col=expr` with exactly one
`=`, each is rewritten to `T1.col2 = expr2`, `T1` being the alias of the merge
target: `col2` is `col` with the white space around it and then the backquotes and
double quotes around it removed, `expr2` is `expr` with the white space around it
removed, and everything in between is kept as it is.  When `col` and `expr` carry
no white space around them and `col` no quote, the result is `T1.col = expr`. -/
theorem prepare_rewrites_assignments {ι α : Type} (ts : ITableSpec ι)
    (insertColNames insertFields onPrimaryCols : List Str)
    (insertValues updateValues : List α) (assigns : List (Str × Str))
    (h : ∀ p ∈ assigns, '=' ∉ p.1 ∧ '=' ∉ p.2) :
    ∃ r, PrepareInsertOrUpdateSQL ts insertColNames insertFields onPrimaryCols
        (assigns.map (fun p => p.1 ++ '=' :: p.2)) insertValues updateValues = .ok r ∧
      r.sql = mergeSQL ts.Name (strings.Join (buildSelectValues insertColNames) ", ".toList)
        (strings.Join (buildOnConditions onPrimaryCols) " AND ".toList)
        (strings.Join insertColNames ", ".toList) (strings.Join insertFields ", ".toList)
        (strings.Join (assigns.map (fun p =>
          "T1.".toList ++ strings.Trim (strings.TrimSpace p.1) keyCutset ++ " = ".toList
            ++ strings.TrimSpace p.2)) ", ".toList) ∧
      ((∀ p ∈ assigns, bareAssignment p) →
        r.sql = mergeSQL ts.Name (strings.Join (buildSelectValues insertColNames) ", ".toList)
          (strings.Join (buildOnConditions onPrimaryCols) " AND ".toList)
          (strings.Join insertColNames ", ".toList) (strings.Join insertFields ", ".toList)
          (strings.Join (assigns.map (fun p =>
            "T1.".toList ++ p.1 ++ " = ".toList ++ p.2)) ", ".toList)) := by
  have hmem : ∀ s ∈ assigns.map (fun p => p.1 ++ '=' :: p.2), '=' ∈ s := by
    intro s hs
    obtain ⟨p, _, rfl⟩ := List.mem_map.mp hs
    exact mem_append_eq p.1 p.2
  refine ⟨_, prepare_eq ts _ _ _ _ _ _ hmem, ?_, ?_⟩
  · have hmap : (assigns.map (fun p => p.1 ++ '=' :: p.2)).map rewrittenSetCol
        = assigns.map (fun p =>
          "T1.".toList ++ strings.Trim (strings.TrimSpace p.1) keyCutset ++ " = ".toList
            ++ strings.TrimSpace p.2) := by
      rw [List.map_map]
      exact List.map_congr_left (fun p hp => rewrittenSetCol_append p.1 p.2 (h p hp).1)
    simp only [hmap]
  · intro hb
    have hmap : (assigns.map (fun p => p.1 ++ '=' :: p.2)).map rewrittenSetCol
        = assigns.map (fun p => "T1.".toList ++ p.1 ++ " = ".toList ++ p.2) := by
      rw [List.map_map]
      exact List.map_congr_left (fun p hp => rewrittenSetCol_bare p (h p hp).1 (hb p hp))
    simp only [hmap]

/-- C2, at the assignment `status=?`: it becomes `T1.status = ?`. -/
theorem prepare_rewrites_assignments_witness :
    ∃ r, PrepareInsertOrUpdateSQL (⟨"orders".toList, [], []⟩ : ITableSpec Unit)
        ["id".toList, "status".toList] ["?".toList, "?".toList] ["id".toList]
        ["status=?".toList] [1, 2] [3] = .ok r ∧
      r.sql = "MERGE INTO \"orders\" T1 USING (SELECT ? AS id, ? AS status FROM DUAL) T2 ON (T1.id=T2.id) WHEN NOT MATCHED THEN INSERT(id, status) VALUES (?, ?) WHEN MATCHED THEN UPDATE T1.status = ?".toList := by
  obtain ⟨r, hr, _, hbare⟩ := prepare_rewrites_assignments
    (⟨"orders".toList, [], []⟩ : ITableSpec Unit) ["id".toList, "status".toList]
    ["?".toList, "?".toList] ["id".toList] [1, 2] [3] [("status".toList, "?".toList)]
    (by decide)
  refine ⟨r, hr, ?_⟩
  rw [hbare (by simp [bareAssignment]; decide)]
  rfl

/-- C2 as stated fails: the assignment with a quoted column and a space before
the placeholder, `"status"= ?`, is not rewritten to `T1."status" =  ?` (the right
side word for word, the left side only qualified) but to `T1.status = ?`. -/
theorem prepare_rewrite_not_verbatim :
    PrepareInsertOrUpdateSQL (⟨"orders".toList, [], []⟩ : ITableSpec Unit)
        ["id".toList, "status".toList] ["?".toList, "?".toList] ["id".toList]
        ["\"status\"= ?".toList] [1, 2] [3]
      = .ok ⟨"MERGE INTO \"orders\" T1 USING (SELECT ? AS id, ? AS status FROM DUAL) T2 ON (T1.id=T2.id) WHEN NOT MATCHED THEN INSERT(id, status) VALUES (?, ?) WHEN MATCHED THEN UPDATE T1.status = ?".toList,
          [1, 2, 1, 2, 3], ["T1.status = ?".toList]⟩ ∧
    "T1.status = ?".toList ≠ "T1.".toList ++ "\"status\"".toList ++ " = ".toList ++ " ?".toList :=
  ⟨rfl, by decide⟩

/-- C3, as the code has it: when every assignment contains at least one `=`, the
call returns SQL text and no error: each assignment is cut at its first `=`,
whatever follows it, further `=` included, being the right-hand side. -/
theorem prepare_accepts_assignments {ι α : Type} (ts : ITableSpec ι)
    (insertColNames insertFields onPrimaryCols updateSetCols : List Str)
    (insertValues updateValues : List α) (h : ∀ s ∈ updateSetCols, '=' ∈ s) :
    ∃ r, PrepareInsertOrUpdateSQL ts insertColNames insertFields onPrimaryCols
        updateSetCols insertValues updateValues = .ok r ∧
      r.sql = mergeSQL ts.Name (strings.Join (buildSelectValues insertColNames) ", ".toList)
        (strings.Join (buildOnConditions onPrimaryCols) " AND ".toList)
        (strings.Join insertColNames ", ".toList) (strings.Join insertFields ", ".toList)
        (strings.Join (updateSetCols.map (fun s =>
          "T1.".toList
            ++ strings.Trim (strings.TrimSpace (s.takeWhile (fun c => c != '='))) keyCutset
            ++ " = ".toList
            ++ strings.TrimSpace ((s.dropWhile (fun c => c != '=')).drop 1))) ", ".toList) :=
  ⟨_, prepare_eq ts _ _ _ _ _ _ h, rfl⟩

/-- C3, at the assignment `a=b=c`: it is accepted and becomes `T1.a = b=c`. -/
theorem prepare_accepts_assignments_witness :
    ∃ r, PrepareInsertOrUpdateSQL (⟨"orders".toList, [], []⟩ : ITableSpec Unit)
        ["id".toList] ["?".toList] ["id".toList] ["a=b=c".toList] [1] [2, 3] = .ok r ∧
      r.sql = "MERGE INTO \"orders\" T1 USING (SELECT ? AS id FROM DUAL) T2 ON (T1.id=T2.id) WHEN NOT MATCHED THEN INSERT(id) VALUES (?) WHEN MATCHED THEN UPDATE T1.a = b=c".toList := by
  obtain ⟨r, hr, hsql⟩ := prepare_accepts_assignments
    (⟨"orders".toList, [], []⟩ : ITableSpec Unit) ["id".toList] ["?".toList] ["id".toList]
    ["a=b=c".toList] [1] [2, 3] (by decide)
  exact ⟨r, hr, hsql.trans rfl⟩

/-- C3 as stated fails: the assignment `a=b=c`, which has two `=`, does not make
the call fail; SQL text is returned. -/
theorem prepare_two_equals_returns_sql :
    PrepareInsertOrUpdateSQL (⟨"orders".toList, [], []⟩ : ITableSpec Unit)
        ["id".toList] ["?".toList] ["id".toList] ["a=b=c".toList] [1] [2, 3]
      = .ok ⟨"MERGE INTO \"orders\" T1 USING (SELECT ? AS id FROM DUAL) T2 ON (T1.id=T2.id) WHEN NOT MATCHED THEN INSERT(id) VALUES (?) WHEN MATCHED THEN UPDATE T1.a = b=c".toList,
          [1, 1, 2, 3], ["T1.a = b=c".toList]⟩ :=
  rfl

/-- C4: when the table and column names hold no `?`, every insert field is `?`,
there is one insert value per insert column and the update assignments hold as
many `?` as there are update values, the rendered SQL has as many `?` as the
parameter list has values; the SQL is the merge text whose select list holds the
first `n`, whose VALUES clause the next `n` and whose UPDATE assignments the
remaining placeholders, no other part holding any. -/
theorem prepare_placeholders_line_up {ι α : Type} (ts : ITableSpec ι)
    (insertColNames insertFields onPrimaryCols updateSetCols : List Str)
    (insertValues updateValues : List α)
    (hsets : ∀ s ∈ updateSetCols, '=' ∈ s)
    (htable : '?' ∉ ts.Name)
    (hcols : ∀ c ∈ insertColNames, '?' ∉ c)
    (hprim : ∀ c ∈ onPrimaryCols, '?' ∉ c)
    (hfields : ∀ f ∈ insertFields, f = ['?'])
    (hflen : insertFields.length = insertColNames.length)
    (hvlen : insertValues.length = insertColNames.length)
    (hupd : (updateSetCols.map placeholders).sum = updateValues.length) :
    ∃ r, PrepareInsertOrUpdateSQL ts insertColNames insertFields onPrimaryCols
        updateSetCols insertValues updateValues = .ok r ∧
      r.values = insertValues ++ insertValues ++ updateValues ∧
      placeholders r.sql = r.values.length ∧
      ∃ sel cond cols vals upd,
        r.sql = mergeSQL ts.Name sel cond cols vals upd ∧
        sel = strings.Join (buildSelectValues insertColNames) ", ".toList ∧
        vals = strings.Join insertFields ", ".toList ∧
        upd = strings.Join r.updateSetCols ", ".toList ∧
        placeholders ts.Name = 0 ∧
        placeholders sel = insertValues.length ∧
        placeholders cond = 0 ∧
        placeholders cols = 0 ∧
        placeholders vals = insertValues.length ∧
        placeholders upd = updateValues.length := by
  have h1 := placeholders_selectValues insertColNames hcols
  have h2 := placeholders_onConditions onPrimaryCols hprim
  have h3 := placeholders_columns insertColNames hcols
  have h4 := placeholders_fields insertFields hfields
  have h5 := placeholders_setValues updateSetCols hsets
  have h6 : placeholders ts.Name = 0 := List.count_eq_zero.mpr htable
  refine ⟨_, prepare_eq ts _ _ _ _ _ _ hsets, rfl, ?_, _, _, _, _, _, rfl, rfl, rfl, rfl, h6,
    ?_, h2, h3, ?_, ?_⟩
  · simp only [placeholders_mergeSQL, h1, h2, h3, h4, h5, h6, List.length_append]
    omega
  · omega
  · omega
  · omega

/-- C4, at a call with two insert columns and one assignment: five placeholders
for five parameters. -/
theorem prepare_placeholders_line_up_witness :
    ∃ r, PrepareInsertOrUpdateSQL (⟨"orders".toList, [], []⟩ : ITableSpec Unit)
        ["id".toList, "status".toList] ["?".toList, "?".toList] ["id".toList]
        ["status=?".toList] [1, 2] [3] = .ok r ∧
      r.values = [1, 2, 1, 2, 3] ∧ placeholders r.sql = 5 := by
  obtain ⟨r, hr, hv, hp, _⟩ := prepare_placeholders_line_up
    (⟨"orders".toList, [], []⟩ : ITableSpec Unit) ["id".toList, "status".toList]
    ["?".toList, "?".toList] ["id".toList] ["status=?".toList] ([1, 2] : List Nat) [3]
    (by decide) (by decide) (by decide) (by decide) (by decide) rfl rfl rfl
  refine ⟨r, hr, hv, ?_⟩
  rw [hp, hv]
  rfl

/-- C5: the rendered SQL is the merge text whose select list is one `? AS col`
term per insert column, in order, joined by a comma and a space, and whose match
predicate is one `T1.col=T2.col` equality per key column, in order, joined by
` AND `; the first has as many terms as there are insert columns, the second as
many as there are key columns. -/
theorem prepare_select_list_and_predicate {ι α : Type} (ts : ITableSpec ι)
    (insertColNames insertFields onPrimaryCols updateSetCols : List Str)
    (insertValues updateValues : List α)
    (hsets : ∀ s ∈ updateSetCols, '=' ∈ s) :
    ∃ r, PrepareInsertOrUpdateSQL ts insertColNames insertFields onPrimaryCols
        updateSetCols insertValues updateValues = .ok r ∧
      r.sql = mergeSQL ts.Name
        (strings.Join (insertColNames.map (fun col => "? AS ".toList ++ col)) ", ".toList)
        (strings.Join (onPrimaryCols.map (fun col =>
          "T1.".toList ++ col ++ "=T2.".toList ++ col)) " AND ".toList)
        (strings.Join insertColNames ", ".toList) (strings.Join insertFields ", ".toList)
        (strings.Join r.updateSetCols ", ".toList) ∧
      buildSelectValues insertColNames = insertColNames.map (fun col => "? AS ".toList ++ col) ∧
      buildOnConditions onPrimaryCols
        = onPrimaryCols.map (fun col => "T1.".toList ++ col ++ "=T2.".toList ++ col) ∧
      (buildSelectValues insertColNames).length = insertColNames.length ∧
      (buildOnConditions onPrimaryCols).length = onPrimaryCols.length := by
  have hs := buildSelectValues_eq insertColNames
  have ho := buildOnConditions_eq onPrimaryCols
  refine ⟨_, prepare_eq ts _ _ _ _ _ _ hsets, ?_, hs, ho, ?_, ?_⟩
  · rw [hs, ho]
    rfl
  · rw [hs, List.length_map]
  · rw [ho, List.length_map]

/-- C5, at a call with two insert columns and one key column. -/
theorem prepare_select_list_and_predicate_witness :
    ∃ r, PrepareInsertOrUpdateSQL (⟨"orders".toList, [], []⟩ : ITableSpec Unit)
        ["id".toList, "status".toList] ["?".toList, "?".toList] ["id".toList]
        ["status=?".toList] [1, 2] [3] = .ok r ∧
      buildSelectValues ["id".toList, "status".toList]
        = ["? AS id".toList, "? AS status".toList] ∧
      buildOnConditions ["id".toList] = ["T1.id=T2.id".toList] := by
  obtain ⟨r, hr, _, hs, ho, _⟩ := prepare_select_list_and_predicate
    (⟨"orders".toList, [], []⟩ : ITableSpec Unit) ["id".toList, "status".toList]
    ["?".toList, "?".toList] ["id".toList] ["status=?".toList] [1, 2] [3] (by decide)
  exact ⟨r, hr, hs.trans rfl, ho.trans rfl⟩

/-- C6 fails on the code: the call writes the rewritten assignments into the
caller's slice.  After a first call with `status=?` the slice holds
`T1.status = ?`, and a second call with that slice renders `T1.T1.status = ?`,
SQL text that differs from the first. -/
theorem prepare_overwrites_updateSetCols :
    PrepareInsertOrUpdateSQL (⟨"orders".toList, [], []⟩ : ITableSpec Unit)
        ["id".toList] ["?".toList] ["id".toList] ["status=?".toList] [1] [2]
      = .ok ⟨"MERGE INTO \"orders\" T1 USING (SELECT ? AS id FROM DUAL) T2 ON (T1.id=T2.id) WHEN NOT MATCHED THEN INSERT(id) VALUES (?) WHEN MATCHED THEN UPDATE T1.status = ?".toList,
          [1, 1, 2], ["T1.status = ?".toList]⟩ ∧
    PrepareInsertOrUpdateSQL (⟨"orders".toList, [], []⟩ : ITableSpec Unit)
        ["id".toList] ["?".toList] ["id".toList] ["T1.status = ?".toList] [1] [2]
      = .ok ⟨"MERGE INTO \"orders\" T1 USING (SELECT ? AS id FROM DUAL) T2 ON (T1.id=T2.id) WHEN NOT MATCHED THEN INSERT(id) VALUES (?) WHEN MATCHED THEN UPDATE T1.T1.status = ?".toList,
          [1, 1, 2], ["T1.T1.status = ?".toList]⟩ ∧
    ["T1.status = ?".toList] ≠ ["status=?".toList] :=
  ⟨rfl, rfl, by decide⟩

/-! ## Table creation -/

/-- C7: the first statement of `GetCreateSQLs` is the CREATE TABLE text over an item
list that is the column definitions followed by one more item, the primary-key
clause, if and only if some column is flagged primary; the clause lists the
primary-flagged columns in declared order, and with no primary column the item
list is the column definitions. -/
theorem getCreateSQLs_primary_key_clause {ι : Type}
    (createIndexSQL : ITableSpec ι → ι → Str) (ts : ITableSpec ι) :
    (GetCreateSQLs createIndexSQL ts).head?
      = some ("CREATE TABLE IF NOT EXISTS \x60".toList ++ ts.Name ++ "\x60 (\n".toList
          ++ strings.Join (createTableItems ts.Columns) ",\n".toList ++ "\n)".toList) ∧
    ((∃ clause, createTableItems ts.Columns
        = ts.Columns.map (fun c => c.DefinitionString) ++ [clause])
      ↔ ∃ c ∈ ts.Columns, c.IsPrimary = true) ∧
    ((∃ c ∈ ts.Columns, c.IsPrimary = true) →
      createTableItems ts.Columns
        = ts.Columns.map (fun c => c.DefinitionString) ++
          ["NOT CLUSTER PRIMARY KEY (".toList ++
            strings.Join (((ts.Columns.filter (fun c => c.IsPrimary)).map (fun c => c.Name)).map
              (fun name => "\x60".toList ++ name ++ "\x60".toList)) ", ".toList
            ++ ")".toList]) ∧
    ((¬ ∃ c ∈ ts.Columns, c.IsPrimary = true) →
      createTableItems ts.Columns = ts.Columns.map (fun c => c.DefinitionString)) := by
  have hitems := createTableItems_eq ts.Columns
  have hnil := filter_primary_eq_nil_iff ts.Columns
  have hyes : (∃ c ∈ ts.Columns, c.IsPrimary = true) →
      createTableItems ts.Columns
        = ts.Columns.map (fun c => c.DefinitionString) ++
          ["NOT CLUSTER PRIMARY KEY (".toList ++
            strings.Join (((ts.Columns.filter (fun c => c.IsPrimary)).map (fun c => c.Name)).map
              (fun name => "\x60".toList ++ name ++ "\x60".toList)) ", ".toList
            ++ ")".toList] := by
    intro hex
    have hne : ¬ ts.Columns.filter (fun c => c.IsPrimary) = [] := fun h => hnil.mp h hex
    rw [hitems, if_neg hne, List.map_map]
    rfl
  have hno : (¬ ∃ c ∈ ts.Columns, c.IsPrimary = true) →
      createTableItems ts.Columns = ts.Columns.map (fun c => c.DefinitionString) := by
    intro hex
    rw [hitems, if_pos (hnil.mpr hex), List.append_nil]
  refine ⟨?_, ⟨?_, ?_⟩, hyes, hno⟩
  · rw [getCreateSQLs_eq]
    rfl
  · rintro ⟨clause, hcl⟩
    by_contra hex
    have hlen := congrArg List.length (hcl.symm.trans (hno hex))
    simp at hlen
  · intro hex
    exact ⟨_, hyes hex⟩

/-- C8: with `k` declared indexes `GetCreateSQLs` returns `k+1` statements: the
first is the CREATE TABLE statement, whose text is `CREATE TABLE IF NOT EXISTS`,
the table name between backquotes and, between `(` and `)`, the column definitions
and the primary-key clause if a column is primary; the statement at position `i+1`
is the CREATE INDEX statement of the `i`-th declared index. -/
theorem getCreateSQLs_statements {ι : Type}
    (createIndexSQL : ITableSpec ι → ι → Str) (ts : ITableSpec ι) :
    (GetCreateSQLs createIndexSQL ts).length = ts.Indexes.length + 1 ∧
    (GetCreateSQLs createIndexSQL ts)[0]?
      = some ("CREATE TABLE IF NOT EXISTS \x60".toList ++ ts.Name ++ "\x60 (\n".toList
          ++ strings.Join
            (ts.Columns.map (fun c => c.DefinitionString) ++
              (if (ts.Columns.filter (fun c => c.IsPrimary)) = [] then []
               else ["NOT CLUSTER PRIMARY KEY (".toList ++
                 strings.Join ((ts.Columns.filter (fun c => c.IsPrimary)).map
                   (fun c => "\x60".toList ++ c.Name ++ "\x60".toList)) ", ".toList
                 ++ ")".toList]))
            ",\n".toList
          ++ "\n)".toList) ∧
    (∃ rest, (GetCreateSQLs createIndexSQL ts)[0]? = some ("CREATE TABLE ".toList ++ rest)) ∧
    ∀ i, (GetCreateSQLs createIndexSQL ts)[i + 1]?
      = (ts.Indexes[i]?).map (createIndexSQL ts) := by
  have hfirst : (GetCreateSQLs createIndexSQL ts)[0]?
      = some ("CREATE TABLE IF NOT EXISTS \x60".toList ++ ts.Name ++ "\x60 (\n".toList
          ++ strings.Join
            (ts.Columns.map (fun c => c.DefinitionString) ++
              (if (ts.Columns.filter (fun c => c.IsPrimary)) = [] then []
               else ["NOT CLUSTER PRIMARY KEY (".toList ++
                 strings.Join ((ts.Columns.filter (fun c => c.IsPrimary)).map
                   (fun c => "\x60".toList ++ c.Name ++ "\x60".toList)) ", ".toList
                 ++ ")".toList]))
            ",\n".toList
          ++ "\n)".toList) := by
    rw [getCreateSQLs_eq, List.getElem?_cons_zero, createTableSQL, createTableItems_eq]
    rfl
  have hpre : ∃ rest, (GetCreateSQLs createIndexSQL ts)[0]?
      = some ("CREATE TABLE ".toList ++ rest) :=
    ⟨"IF NOT EXISTS \x60".toList ++ ts.Name ++ "\x60 (\n".toList
      ++ strings.Join
        (ts.Columns.map (fun c => c.DefinitionString) ++
          (if (ts.Columns.filter (fun c => c.IsPrimary)) = [] then []
           else ["NOT CLUSTER PRIMARY KEY (".toList ++
             strings.Join ((ts.Columns.filter (fun c => c.IsPrimary)).map
               (fun c => "\x60".toList ++ c.Name ++ "\x60".toList)) ", ".toList
             ++ ")".toList]))
        ",\n".toList
      ++ "\n)".toList, by rw [hfirst]; simp⟩
  refine ⟨?_, hfirst, hpre, fun i => ?_⟩
  · rw [getCreateSQLs_eq]
    simp
  · rw [getCreateSQLs_eq, List.getElem?_cons_succ, List.getElem?_map]

/-- C9, as the code has it: there is one quoting text, a single character, that
`GetCreateSQLs` puts on both sides of the table name and of each primary-key
column name; the statement is `CREATE TABLE IF NOT EXISTS`, the quoted table
name, and between `(` and `)` on lines of their own the column definitions and,
if a column is primary, `NOT CLUSTER PRIMARY KEY (...)` over the quoted names. -/
theorem getCreateSQLs_quotes_identifiers :
    ∃ q : Str, q.length = 1 ∧
      ∀ (ι : Type) (createIndexSQL : ITableSpec ι → ι → Str) (ts : ITableSpec ι),
        (GetCreateSQLs createIndexSQL ts).head?
          = some ("CREATE TABLE IF NOT EXISTS ".toList ++ quoted q ts.Name ++ " (\n".toList
              ++ strings.Join
                (ts.Columns.map (fun c => c.DefinitionString) ++
                  (if (ts.Columns.filter (fun c => c.IsPrimary)) = [] then []
                   else ["NOT CLUSTER PRIMARY KEY (".toList ++
                     strings.Join ((ts.Columns.filter (fun c => c.IsPrimary)).map
                       (fun c => quoted q c.Name)) ", ".toList ++ ")".toList]))
                ",\n".toList
              ++ "\n)".toList) := by
  refine ⟨"\x60".toList, rfl, fun ι createIndexSQL ts => ?_⟩
  rw [getCreateSQLs_eq, List.head?_cons, createTableSQL, createTableItems_eq]
  simp [quoted, primaryKeyClause]

/-- C9 as stated fails: for the table `orders` with the columns `id` (primary) and
`status` the statement is not the claimed text with double quotes. -/
theorem getCreateSQLs_orders_text :
    GetCreateSQLs (fun (_ : ITableSpec Unit) (_ : Unit) => ([] : Str))
        ⟨"orders".toList,
          [⟨"id".toList, "\"id\" INT".toList, true⟩,
           ⟨"status".toList, "\"status\" TEXT".toList, false⟩], []⟩
      = ["CREATE TABLE IF NOT EXISTS \x60orders\x60 (\n\"id\" INT,\n\"status\" TEXT,\nNOT CLUSTER PRIMARY KEY (\x60id\x60)\n)".toList] ∧
    "CREATE TABLE IF NOT EXISTS \x60orders\x60 (\n\"id\" INT,\n\"status\" TEXT,\nNOT CLUSTER PRIMARY KEY (\x60id\x60)\n)".toList
      ≠ "CREATE TABLE \"orders\" (\"id\" INT, \"status\" TEXT, PRIMARY KEY (\"id\"))".toList ∧
    QuoteChar = "\"".toList :=
  ⟨rfl, by decide, rfl⟩

/-! ## Type mapping -/

/-- C10: `getTextSqlType` returns `VARCHAR` if and only if the width option is
present and is a nonempty string of decimal digits whose value `w` has
`0 < w ≤ 975`, and `TEXT` in every other case; width 975 gives `VARCHAR`, widths
976 and 0, a missing width and an empty width give `TEXT`. -/
theorem getTextSqlType_threshold (tagmap : Str → Option Str) :
    (getTextSqlType tagmap = "VARCHAR".toList ↔
      ∃ w, tagmap TAG_WIDTH = some w ∧ isDecimal w ∧ 0 < decimalValue w ∧
        decimalValue w ≤ 975) ∧
    (getTextSqlType tagmap = "TEXT".toList ↔
      ¬ ∃ w, tagmap TAG_WIDTH = some w ∧ isDecimal w ∧ 0 < decimalValue w ∧
        decimalValue w ≤ 975) ∧
    (tagmap TAG_WIDTH = some "975".toList → getTextSqlType tagmap = "VARCHAR".toList) ∧
    (tagmap TAG_WIDTH = some "976".toList → getTextSqlType tagmap = "TEXT".toList) ∧
    (tagmap TAG_WIDTH = some "0".toList → getTextSqlType tagmap = "TEXT".toList) ∧
    (tagmap TAG_WIDTH = some [] → getTextSqlType tagmap = "TEXT".toList) ∧
    (tagmap TAG_WIDTH = none → getTextSqlType tagmap = "TEXT".toList) := by
  have hiff := width_option_iff tagmap
  have hne : "TEXT".toList ≠ "VARCHAR".toList := by decide
  refine ⟨⟨fun hv => ?_, fun hex => ?_⟩, ⟨fun ht => ?_, fun hex => ?_⟩, ?_, ?_, ?_, ?_, ?_⟩
  · by_contra hex
    have ht := getTextSqlType_text tagmap (fun hp => hex (hiff.mpr hp))
    exact hne (ht.symm.trans hv)
  · obtain ⟨h1, h2, h3⟩ := hiff.mp hex
    exact getTextSqlType_varchar tagmap h1 h2 h3
  · intro hex
    obtain ⟨h1, h2, h3⟩ := hiff.mp hex
    exact hne (ht.symm.trans (getTextSqlType_varchar tagmap h1 h2 h3))
  · exact getTextSqlType_text tagmap (fun hp => hex (hiff.mpr hp))
  · intro h
    rw [getTextSqlType, h]
    rfl
  · intro h
    rw [getTextSqlType, h]
    rfl
  · intro h
    rw [getTextSqlType, h]
    rfl
  · intro h
    rw [getTextSqlType, h]
    rfl
  · intro h
    rw [getTextSqlType, h]
    rfl

/-- C11: for a field of kind float32 or float64, the column is the decimal column
when the tag map carries a width option, and it is a float column if and only if
the tag map carries none. -/
theorem getColumnSpec_float_width (implementsISerializable : ReflectType → Bool)
    (tableName : Str) (fieldType : ReflectType) (fieldname : Str)
    (tagmap : Str → Option Str) (isPointer : Bool)
    (hk : fieldType.Kind = .Float32 ∨ fieldType.Kind = .Float64) :
    ((tagmap TAG_WIDTH).isSome = true →
      GetColumnSpecByFieldType implementsISerializable tableName fieldType fieldname tagmap
          isPointer
        = some (.NewDecimalColumn fieldname tagmap isPointer)) ∧
    ((∃ colType, GetColumnSpecByFieldType implementsISerializable tableName fieldType fieldname
          tagmap isPointer
        = some (.NewFloatColumn fieldname colType tagmap isPointer))
      ↔ tagmap TAG_WIDTH = none) := by
  have h1 : ¬ fieldType = tristate.TriStateType := by
    intro h
    rw [h] at hk
    exact absurd hk (by decide)
  have h2 : ¬ fieldType = gotypes.TimeType := by
    intro h
    rw [h] at hk
    exact absurd hk (by decide)
  cases hw : tagmap TAG_WIDTH with
  | none =>
    refine ⟨fun h => absurd h (by simp), ⟨fun _ => rfl, fun _ => ?_⟩⟩
    rcases hk with hk | hk
    · exact ⟨_, by simp only [GetColumnSpecByFieldType, if_neg h1, if_neg h2, hk, hw]; rfl⟩
    · exact ⟨_, by simp only [GetColumnSpecByFieldType, if_neg h1, if_neg h2, hk, hw]; rfl⟩
  | some w =>
    have hdec : GetColumnSpecByFieldType implementsISerializable tableName fieldType fieldname
        tagmap isPointer = some (.NewDecimalColumn fieldname tagmap isPointer) := by
      rcases hk with hk | hk
      · simp only [GetColumnSpecByFieldType, if_neg h1, if_neg h2, hk, hw]
        rfl
      · simp only [GetColumnSpecByFieldType, if_neg h1, if_neg h2, hk, hw]
        rfl
    refine ⟨fun _ => hdec, ⟨fun hex => ?_, fun h => by simp at h⟩⟩
    obtain ⟨colType, hc⟩ := hex
    rw [hdec] at hc
    cases hc

/-- C11, at a float64 field: with width 10 the decimal column, with no width the
float column. -/
theorem getColumnSpec_float_width_witness :
    GetColumnSpecByFieldType (fun _ => false) "orders".toList gotypes.Float64Type
        "price".toList (fun k => if k = TAG_WIDTH then some "10".toList else none) false
      = some (.NewDecimalColumn "price".toList
          (fun k => if k = TAG_WIDTH then some "10".toList else none) false) ∧
    ∃ colType, GetColumnSpecByFieldType (fun _ => false) "orders".toList gotypes.Float64Type
        "price".toList (fun _ => none) false
      = some (.NewFloatColumn "price".toList colType (fun _ => none) false) :=
  ⟨(getColumnSpec_float_width (fun _ => false) "orders".toList gotypes.Float64Type
      "price".toList (fun k => if k = TAG_WIDTH then some "10".toList else none) false
      (Or.inr rfl)).1 rfl,
   (getColumnSpec_float_width (fun _ => false) "orders".toList gotypes.Float64Type
      "price".toList (fun _ => none) false (Or.inr rfl)).2.mpr rfl⟩

/-- C12: the result is nil exactly when the field type is not the tri-state type,
not the timestamp type, not of kind string, an int or uint width, bool, float32,
float64, map or slice, and does not implement the serializable interface; for
every other field type it is a column. -/
theorem getColumnSpec_nil_iff (implementsISerializable : ReflectType → Bool)
    (tableName : Str) (fieldType : ReflectType) (fieldname : Str)
    (tagmap : Str → Option Str) (isPointer : Bool) :
    (GetColumnSpecByFieldType implementsISerializable tableName fieldType fieldname tagmap
        isPointer = none
      ↔ ¬ (fieldType = tristate.TriStateType ∨ fieldType = gotypes.TimeType ∨
          fieldType.Kind ∈ [reflect.Kind.String, .Int, .Int8, .Int16, .Int32, .Int64,
            .Uint, .Uint8, .Uint16, .Uint32, .Uint64, .Bool, .Float32, .Float64, .Map,
            .Slice] ∨
          implementsISerializable fieldType = true)) ∧
    ((fieldType = tristate.TriStateType ∨ fieldType = gotypes.TimeType ∨
          fieldType.Kind ∈ [reflect.Kind.String, .Int, .Int8, .Int16, .Int32, .Int64,
            .Uint, .Uint8, .Uint16, .Uint32, .Uint64, .Bool, .Float32, .Float64, .Map,
            .Slice] ∨
          implementsISerializable fieldType = true)
      → ∃ col, GetColumnSpecByFieldType implementsISerializable tableName fieldType fieldname
          tagmap isPointer = some col) := by
  have key : GetColumnSpecByFieldType implementsISerializable tableName fieldType fieldname
        tagmap isPointer = none
      ↔ ¬ (fieldType = tristate.TriStateType ∨ fieldType = gotypes.TimeType ∨
          fieldType.Kind ∈ [reflect.Kind.String, .Int, .Int8, .Int16, .Int32, .Int64,
            .Uint, .Uint8, .Uint16, .Uint32, .Uint64, .Bool, .Float32, .Float64, .Map,
            .Slice] ∨
          implementsISerializable fieldType = true) := by
    by_cases h1 : fieldType = tristate.TriStateType
    · simp [GetColumnSpecByFieldType, h1]
    · by_cases h2 : fieldType = gotypes.TimeType
      · have hne : ¬ gotypes.TimeType = tristate.TriStateType := by decide
        simp [GetColumnSpecByFieldType, h2, hne]
      · cases hk : fieldType.Kind <;>
          simp only [GetColumnSpecByFieldType, if_neg h1, if_neg h2, hk] <;>
          (try split) <;> simp_all
  refine ⟨key, fun hm => ?_⟩
  cases hres : GetColumnSpecByFieldType implementsISerializable tableName fieldType fieldname
      tagmap isPointer with
  | none => exact absurd hm (key.mp hres)
  | some col => exact ⟨col, rfl⟩

/-- C20 fails on the code: a named type of kind float64 that is not the built-in
`float64`, with no width option, maps to `REAL`; only the built-in `float64` maps
to `DOUBLE`. -/
theorem getColumnSpec_named_float64 :
    GetColumnSpecByFieldType (fun _ => false) "orders".toList
        ⟨"example.com/shop".toList, "Price".toList, .Float64⟩ "price".toList
        (fun _ => none) false
      = some (.NewFloatColumn "price".toList "REAL".toList (fun _ => none) false) ∧
    GetColumnSpecByFieldType (fun _ => false) "orders".toList gotypes.Float64Type
        "price".toList (fun _ => none) false
      = some (.NewFloatColumn "price".toList "DOUBLE".toList (fun _ => none) false) :=
  ⟨rfl, rfl⟩

/-! ## Schema introspection -/

/-- C13, as the code has it: when the catalog query succeeds, the returned index
sequence holds no index built from a record flagged primary and exactly one index
for every record not flagged primary, in the order the records are visited: it
has the record's name and the record's member columns, put in increasing order by
`NewTableIndex`, and is not unique.  The length is the number of records not
flagged primary, and with no such record the sequence is empty with no error. -/
theorem fetchIndexes_secondary_only {ι γ ε : Type} (ts : ITableSpec ι)
    (records : List sIndexRecord) :
    ∃ idxes, FetchIndexesAndConstraints (γ := γ) (ε := ε) NewTableIndex ts (records, none)
        = (some idxes, none, none) ∧
      idxes = (records.filter (fun r => !r.isPrimary)).map
        (fun r => (⟨ts.Name, r.indexName, sort.Strings r.colnames, false⟩ : STableIndex)) ∧
      idxes.length = records.countP (fun r => !r.isPrimary) ∧
      (∀ i (h : i < idxes.length), ∃ r ∈ records, r.isPrimary = false ∧
        (idxes.get ⟨i, h⟩).name = r.indexName ∧
        (idxes.get ⟨i, h⟩).columns.Perm r.colnames ∧
        (idxes.get ⟨i, h⟩).columns.Pairwise (fun a b => stringLE a b = true) ∧
        (idxes.get ⟨i, h⟩).isUnique = false) ∧
      ((∀ r ∈ records, r.isPrimary = true) → idxes = []) := by
  refine ⟨_, fetchIndexes_ok NewTableIndex ts records, rfl, ?_, ?_, ?_⟩
  · rw [List.length_map, List.countP_eq_length_filter]
  · intro i h
    have hmem := List.get_mem ((records.filter (fun r => !r.isPrimary)).map
        (fun r => NewTableIndex ts r.indexName r.colnames false)) i h
    obtain ⟨r, hr, heq⟩ := List.mem_map.mp hmem
    have hf := List.mem_filter.mp hr
    refine ⟨r, hf.1, by simpa using hf.2, ?_, ?_, ?_, ?_⟩
    · rw [← heq]
      rfl
    · rw [← heq]
      exact sortStrings_perm r.colnames
    · rw [← heq]
      exact sortStrings_pairwise r.colnames
    · rw [← heq]
      rfl
  · intro hall
    have : records.filter (fun r => !r.isPrimary) = [] := by
      rw [List.filter_eq_nil_iff]
      intro r hr
      simp [hall r hr]
    rw [this]
    rfl

/-- C13 as stated fails: for a record that is not primary and lists the columns
`b`, `a` the index returned has the columns `a`, `b`, not the record's columns in
the record's order. -/
theorem fetchIndexes_columns_reordered :
    FetchIndexesAndConstraints (γ := Unit) (ε := Unit) NewTableIndex
        (⟨"orders".toList, [], []⟩ : ITableSpec Unit)
        ([⟨"ix_orders_b_a".toList, ["b".toList, "a".toList], false⟩], none)
      = (some [⟨"orders".toList, "ix_orders_b_a".toList, ["a".toList, "b".toList], false⟩],
          none, none) ∧
    ["a".toList, "b".toList] ≠ ["b".toList, "a".toList] :=
  ⟨rfl, by decide⟩

/-- C16: when the catalog query fails with `e`, both operations return a nil
sequence and an error that wraps `e`; when it succeeds they return no error, and
`FetchTableColumnSpecs` returns the conversion of each catalog row in order. -/
theorem fetch_error_wrapped {ι σ κ κ2 γ ε : Type} (toColumnSpec : σ → κ)
    (NewTableIndex : ITableSpec ι → Str → List Str → Bool → κ2) (ts : ITableSpec ι) :
    (∀ (infos : List σ) (e : GoError ε),
      FetchTableColumnSpecs toColumnSpec (infos, some e)
        = (none, some (.Wrap e "fetchTableColInfo".toList)) ∧
      (GoError.Wrap e "fetchTableColInfo".toList).Unwrap = some e) ∧
    (∀ (records : List sIndexRecord) (e : GoError ε),
      FetchIndexesAndConstraints (γ := γ) NewTableIndex ts (records, some e)
        = (none, none, some (.Wrap e "fetchTableIndexes".toList)) ∧
      (GoError.Wrap e "fetchTableIndexes".toList).Unwrap = some e) ∧
    (∀ (infos : List σ),
      FetchTableColumnSpecs (ε := ε) toColumnSpec (infos, none)
        = (some (infos.map toColumnSpec), none)) ∧
    (∀ (records : List sIndexRecord),
      (FetchIndexesAndConstraints (γ := γ) (ε := ε) NewTableIndex ts (records, none)).2.2
        = none) := by
  refine ⟨fun infos e => ⟨rfl, rfl⟩, fun records e => ⟨rfl, rfl⟩,
    fun infos => fetchColumnSpecs_ok toColumnSpec infos, fun records => ?_⟩
  rw [fetchIndexes_ok]

/-! ## The drop-index template -/

/-- C19 fails on the code: rendered with index `ix_status` and table `orders` the
template gives `DROP INDEX "ix_status"" ON "orders"`, with two double quotes after
the index name and five in all, not `DROP INDEX "ix_status" ON "orders"`. -/
theorem dropIndex_template_five_quotes :
    TemplateEval DropIndexSQLTemplate
        [("Table".toList, "orders".toList), ("Index".toList, "ix_status".toList)]
      = .ok "DROP INDEX \"ix_status\"\" ON \"orders\"".toList ∧
    "DROP INDEX \"ix_status\"\" ON \"orders\"".toList.count '\"' = 5 ∧
    "DROP INDEX \"ix_status\"\" ON \"orders\"".toList
      ≠ "DROP INDEX \"ix_status\" ON \"orders\"".toList ∧
    QuoteChar = "\"".toList :=
  ⟨rfl, by decide, by decide, rfl⟩

/-! ## The execution wrapper -/

/-- C14: whatever the underlying handle does, `DoExec`, `QueryRow` and `Query` call
it once with the generated comment followed by the caller's query text, so that
the query is a suffix of the executed text, and with the caller's argument list,
and they return what the handle returned. -/
theorem instrumented_calls_pass_through {α ρ : Type} (handle : Str → List α → ρ)
    (frames : List runtime.Frame) (uuid action table query : Str) (args : List α) :
    (DB.DoExec handle frames uuid action table query args).returned
      = handle (flowComment (getFileLine frames).GetFile (getFileLine frames).GetFileLine
          action uuid ++ query) args ∧
    (DB.QueryRow handle frames uuid action table query args).returned
      = handle (flowComment (getFileLine frames).GetFile (getFileLine frames).GetFileLine
          action uuid ++ query) args ∧
    (DB.Query handle frames uuid action table query args).returned
      = handle (flowComment (getFileLine frames).GetFile (getFileLine frames).GetFileLine
          action uuid ++ query) args ∧
    query <:+ flowComment (getFileLine frames).GetFile (getFileLine frames).GetFileLine
      action uuid ++ query :=
  ⟨doExec_returned handle frames uuid action table query args,
   queryRow_returned handle frames uuid action table query args,
   query_returned handle frames uuid action table query args,
   List.suffix_append _ _⟩

/-- C15: `GetFile` and `GetFileLine` take the same branch: both give the market
pair when the market file is set and the onecloud pair otherwise.  On the record
`getFileLine` builds, the file and line are those of one frame: the first market
frame when there is one, else the first onecloud frame when there is one. -/
theorem fileLine_same_branch (l : fileLine) :
    (l.marketFile ≠ [] → l.GetFile = l.marketFile ∧ l.GetFileLine = l.marketLine) ∧
    (l.marketFile = [] → l.GetFile = l.oneCloudFile ∧ l.GetFileLine = l.oneCloudLine) ∧
    ∀ frames, l = getFileLine frames →
      ((∃ f ∈ frames, isMarketFrame f = true) →
        ∃ f ∈ frames, frames.find? isMarketFrame = some f ∧
          l.GetFile = f.File ∧ l.GetFileLine = f.Line) ∧
      ((∀ f ∈ frames, isMarketFrame f = false) → (∃ f ∈ frames, isOneCloudFrame f = true) →
        ∃ f ∈ frames, frames.find? isOneCloudFrame = some f ∧
          l.GetFile = f.File ∧ l.GetFileLine = f.Line) := by
  refine ⟨fun h => ?_, fun h => ?_, fun frames hl => ⟨fun hex => ?_, fun hall hex => ?_⟩⟩
  · simp [fileLine.GetFile, fileLine.GetFileLine, h]
  · simp [fileLine.GetFile, fileLine.GetFileLine, h]
  · obtain ⟨f, hfind, hmem, hp⟩ := find_some_of_exists _ _ hex
    have hne := market_file_ne_nil f hp
    refine ⟨f, hmem, hfind, ?_⟩
    rw [hl, getFileLine_eq, firstMatch_of_find_some _ _ f hfind]
    simp [fileLine.GetFile, fileLine.GetFileLine, hne]
  · obtain ⟨f, hfind, hmem, _⟩ := find_some_of_exists _ _ hex
    refine ⟨f, hmem, hfind, ?_⟩
    rw [hl, getFileLine_eq, firstMatch_of_find_some _ _ f hfind,
      firstMatch_of_find_none _ _ (find_none_of_forall _ _ hall)]
    simp [fileLine.GetFile, fileLine.GetFileLine]

/-- C17, as the code has it: when the resolved file path, the action name and the
correlation id hold no line break and no `*/`, the text put in front of the query
by `DoExec`, `QueryRow` and `Query` is one well-formed comment: it starts with
`/*`, ends with `*/`, holds no line break and no `*/` before its end. -/
theorem instrumented_comment_well_formed {α : Type} (frames : List runtime.Frame)
    (uuid action table query : Str) (args : List α)
    (hfile : commentSafe (getFileLine frames).GetFile)
    (haction : commentSafe action) (huuid : commentSafe uuid) :
    ∃ c, wellFormedComment c ∧
      (DB.DoExec Prod.mk frames uuid action table query args).returned = (c ++ query, args) ∧
      (DB.QueryRow Prod.mk frames uuid action table query args).returned
        = (c ++ query, args) ∧
      (DB.Query Prod.mk frames uuid action table query args).returned = (c ++ query, args) :=
  ⟨_, flowComment_wellFormed _ (getFileLine frames).GetFileLine action uuid hfile haction huuid,
    doExec_returned Prod.mk frames uuid action table query args,
    queryRow_returned Prod.mk frames uuid action table query args,
    query_returned Prod.mk frames uuid action table query args⟩

/-- C17, at the action `CreateDisks` with no matching frame. -/
theorem instrumented_comment_well_formed_witness :
    ∃ c, wellFormedComment c ∧
      (DB.DoExec Prod.mk [] "869323BC4C51".toList "CreateDisks".toList "disks".toList
        "SELECT 1".toList ([] : List Nat)).returned = (c ++ "SELECT 1".toList, []) := by
  obtain ⟨c, hc, hexec, _⟩ := instrumented_comment_well_formed
    ([] : List runtime.Frame) "869323BC4C51".toList "CreateDisks".toList "disks".toList
    "SELECT 1".toList ([] : List Nat)
    (by unfold commentSafe; decide) (by unfold commentSafe; decide)
    (by unfold commentSafe; decide)
  exact ⟨c, hc, hexec⟩

/-- C17 as stated fails: an action name with `*/` in it closes the comment early,
and what follows it in the action name is part of the executed statement. -/
theorem instrumented_comment_closed_by_action :
    (DB.DoExec Prod.mk [] "u".toList "x*/ DELETE FROM t; /*".toList "t".toList
        "SELECT 1".toList ([] : List Nat)).returned
      = ("/* product=tke-market, file=, line=0, flow=x*/ DELETE FROM t; /*, identity=u */SELECT 1".toList, []) ∧
    "*/".toList <:+:
      "/* product=tke-market, file=, line=0, flow=x*/ DELETE FROM t; /*, identity=u */".toList.dropLast :=
  ⟨rfl, ⟨"/* product=tke-market, file=, line=0, flow=x".toList,
    " DELETE FROM t; /*, identity=u *".toList, rfl⟩⟩

/-- C18: over the frames of the call stack, `getFileLine` records for the outer
pattern the file and line of the first frame whose file contains
`yunion.io/x/onecloud`, and for the secondary pattern those of the first frame
whose file contains `market` and not `dispatcher`; a pattern no frame matches
leaves an empty file and line 0, and when neither matches the reported file is
empty and the line 0. -/
theorem getFileLine_first_match (frames : List runtime.Frame) :
    getFileLine frames
      = ⟨((frames.find? isOneCloudFrame).map (fun f => f.File)).getD [],
         ((frames.find? isOneCloudFrame).map (fun f => f.Line)).getD 0,
         ((frames.find? isMarketFrame).map (fun f => f.File)).getD [],
         ((frames.find? isMarketFrame).map (fun f => f.Line)).getD 0⟩ ∧
    (∀ f, isOneCloudFrame f = true ↔ "yunion.io/x/onecloud".toList <:+: f.File) ∧
    (∀ f, isMarketFrame f = true ↔
      ("market".toList <:+: f.File ∧ ¬ "dispatcher".toList <:+: f.File)) ∧
    ((∀ f ∈ frames, isOneCloudFrame f = false ∧ isMarketFrame f = false) →
      getFileLine frames = ⟨[], 0, [], 0⟩ ∧ (getFileLine frames).GetFile = [] ∧
        (getFileLine frames).GetFileLine = 0) := by
  have heq : getFileLine frames
      = ⟨((frames.find? isOneCloudFrame).map (fun f => f.File)).getD [],
         ((frames.find? isOneCloudFrame).map (fun f => f.Line)).getD 0,
         ((frames.find? isMarketFrame).map (fun f => f.File)).getD [],
         ((frames.find? isMarketFrame).map (fun f => f.Line)).getD 0⟩ := by
    rw [getFileLine_eq, firstMatch_nil_eq, firstMatch_nil_eq]
  refine ⟨heq, fun f => contains_iff_infix _ _, fun f => ?_, fun hall => ?_⟩
  · rw [isMarketFrame, Bool.and_eq_true, Bool.not_eq_true', contains_iff_infix,
      ← Bool.not_eq_true, contains_iff_infix]
  · have h1 := find_none_of_forall isOneCloudFrame frames (fun f hf => (hall f hf).1)
    have h2 := find_none_of_forall isMarketFrame frames (fun f hf => (hall f hf).2)
    rw [heq, h1, h2]
    exact ⟨rfl, rfl, rfl⟩

end Sqlchemy
